import Mathlib

/-!
# Verification of the NED resource cache and type resolver

A shallow embedding of `src/omnetpp-6.0.1/src/nedxml/nedresourcecache.cc`.
Each definition mirrors the C++ function of the same name.  External
collaborators (parser, validators, pattern matcher, filesystem) are modelled
as oracle parameters; helper utilities from `common/` (not under `src/`)
are modelled by their documented semantics.  Cases where the C++ program
would execute undefined behaviour (null dereference, failed `Assert`) are
made explicit with `Option` or a dedicated error constructor.
-/

namespace NedRc

/-! ## String and path utilities

String primitives are implemented over `List Char` so that every
definition evaluates by kernel reduction on concrete inputs. -/

/-- Source `strchr(s, c) != nullptr`. -/
def strContainsChar (s : String) (c : Char) : Bool :=
  s.toList.contains c

/-- Source `opp_stringendswith(s, suffix)` from `common/stringutil.h`. -/
def strEndsWith (s suffix : String) : Bool :=
  List.isPrefixOf suffix.toList.reverse s.toList.reverse

/-- Source `opp_stringbeginswith`-style prefix test. -/
def strStartsWith (s pre : String) : Bool :=
  List.isPrefixOf pre.toList s.toList

/-- Split a character list at every occurrence of `c` (the
`StringTokenizer`/`splitOn` primitive). -/
def splitOnChar : List Char → Char → List (List Char)
  | [], _ => [[]]
  | x :: rest, c =>
    if x = c then [] :: splitOnChar rest c
    else
      match splitOnChar rest c with
      | [] => [[x]]
      | h :: t => (x :: h) :: t

/-- Trim surrounding whitespace. -/
def trimChars (cs : List Char) : List Char :=
  ((cs.dropWhile Char.isWhitespace).reverse.dropWhile Char.isWhitespace).reverse

/-- Source `opp_join(sep, s1, s2)` from `common/stringutil.h` (not under `src/`).
Modelled from the spec: combines two name components with the separator,
omitting empty components (spec 4.7: "combines the source folder's root
package with the relative sub-path"). -/
def oppJoin (sep a b : String) : String :=
  if a = "" then b else if b = "" then a else a ++ sep ++ b

/-- Source `opp_splitandtrim(str, ";")` from `common/stringutil.h` (not under
`src/`), as used for the excluded-packages argument.  Modelled from the
spec: "a string of `;`-separated package names". -/
def splitAndTrim (s : String) (sep : Char) : List String :=
  (splitOnChar s.toList sep).map (fun cs => String.mk (trimChars cs))

/-- Assoc-list lookup, modelling `std::map::find` / `containsKey`. -/
def mapGet (m : List (String × α)) (k : String) : Option α :=
  (m.find? (fun p => p.1 = k)).map Prod.snd

/-- Source `containsKey(map, key)` from `common/stlutil.h`. -/
def containsKey (m : List (String × α)) (k : String) : Bool :=
  (mapGet m k).isSome

/-- Source `map[key] = value`: replace the value if the key is present, else append.
Modelled from the spec: "The oracle's iteration order is insertion order
into the type index" (the concrete map type is declared in
`nedresourcecache.h`, which is not under `src/`; the spec fixes its
iteration order to insertion order). -/
def mapInsert (m : List (String × α)) (k : String) (v : α) : List (String × α) :=
  match m with
  | [] => [(k, v)]
  | (k', v') :: rest =>
      if k' = k then (k', v) :: rest else (k', v') :: mapInsert rest k v

/-- Keys of an assoc list are pairwise distinct. -/
def uniqueKeys (m : List (String × α)) : Prop :=
  (m.map Prod.fst).Nodup

/-- Source `canonicalize(pathname)` (source line 41): `tidyFilename(toAbsolutePath(p))`
from `common/fileutil.h` (not under `src/`).  Modelled from the spec
(PathOps, 4.1 and the Canonical-path data model): resolve relative to the
current directory `cwd`, collapse redundant separators and `.`/`..`
components, yielding an absolute `/`-separated path without a trailing
slash. -/
def canonicalize (cwd p : String) : String :=
  let abs := if strStartsWith p "/" then p else cwd ++ "/" ++ p
  let comps := (splitOnChar abs.toList '/').foldl
    (fun acc c =>
      if c = [] ∨ c = ['.'] then acc
      else if c = ['.', '.'] then acc.dropLast
      else acc ++ [c]) []
  "/" ++ String.intercalate "/" (comps.map String.mk)

/-- Source `isPathPrefixOf(prefix, path)` (source lines 415-429).  Both arguments
must be canonical; the C++ `Assert` that neither ends in `/` is a
precondition and does not affect the returned value when it holds. -/
def isPathPrefixOf (pre path : String) : Bool :=
  let p := path.toList
  let q := pre.toList
  if p.length = q.length then decide (p = q)
  else if p.length < q.length then false
  else if p.take q.length ≠ q then false
  else p.getD q.length ' ' = '/'

/-- The part of `s` before the last `.`, if `s` contains a dot: the
`rfind('.')`/`substr(0, pos)` idiom of lines 381-382, 462-463, 481-483. -/
def beforeLastDot? (s : String) : Option String :=
  match s.toList.reverse.dropWhile (fun c => c ≠ '.') with
  | [] => none
  | _ :: pre => some (String.mk pre.reverse)

/-- Source `isPackageNedFile(fname)` (source lines 129-132). -/
def isPackageNedFile (fname : String) : Bool :=
  fname = "package.ned" || strEndsWith fname "/package.ned"

/-! ## AST model

`ASTNode` (external header) offers tag identity, attribute lookup and
first-child / next-sibling navigation; we mirror that shape directly.
A node value carries its own following siblings; accessors that treat a
node as a subtree ignore its `nextSibling` field. -/

inductive Tag where
  | file | packageDecl | importDecl | extendsDecl | interfaceName
  | simpleModule | compoundModule | channel | channelInterface | moduleInterface
  | typesBlock | other
deriving DecidableEq, Repr

/-- Is this one of the five type-defining tags of lines 258-259? -/
def Tag.isTypeTag : Tag → Bool
  | .simpleModule => true | .compoundModule => true | .channel => true
  | .channelInterface => true | .moduleInterface => true
  | _ => false

inductive Ast where
  | nil
  | node (tag : Tag) (attrs : List (String × String)) (firstChild : Ast) (nextSibling : Ast)
deriving DecidableEq, Repr

namespace Ast

def tag? : Ast → Option Tag
  | nil => none
  | node t _ _ _ => some t

/-- Source `getAttribute(name)`: missing attributes read as the empty string. -/
def getAttribute (a : Ast) (name : String) : String :=
  match a with
  | nil => ""
  | node _ attrs _ _ => ((attrs.find? (fun p => p.1 = name)).map Prod.snd).getD ""

/-- The i-th node along a sibling chain (`getNextSibling` iterated). -/
def sibAt : Ast → Nat → Option Ast
  | nil, _ => none
  | node t a c s, 0 => some (node t a c s)
  | node _ _ _ s, i + 1 => s.sibAt i

/-- The i-th child of a node (`getFirstChild` then `getNextSibling`s). -/
def childAt : Ast → Nat → Option Ast
  | nil, _ => none
  | node _ _ c _, i => c.sibAt i

/-- Navigate from a node along a path of child indices. -/
def get : Ast → List Nat → Option Ast
  | a, [] => some a
  | a, i :: p => match a.childAt i with
    | none => none
    | some c => c.get p

/-- The sibling chain starting at this node, as a list. -/
def chainList : Ast → List Ast
  | nil => []
  | node t a c s => node t a c s :: s.chainList

/-- The children of a node, in order. -/
def childList : Ast → List Ast
  | nil => []
  | node _ _ c _ => c.chainList

/-- Index and node of the first node in a sibling chain with the given tag. -/
def chainFirstWithTag : Ast → Tag → Nat → Option (Nat × Ast)
  | nil, _, _ => none
  | node t a c s, tg, i =>
      if t = tg then some (i, node t a c s) else s.chainFirstWithTag tg (i + 1)

/-- Source `getFirstChildWithTag(tag)`. -/
def firstChildWithTag (a : Ast) (tg : Tag) : Option Ast :=
  match a with
  | nil => none
  | node _ _ c _ => (c.chainFirstWithTag tg 0).map Prod.snd

/-- The `import-spec` attributes of the file node's import children, in file
order (`getFirstImportChild` / `getNextImportSibling`, lines 494-496). -/
def importSpecs (fileNode : Ast) : List String :=
  (fileNode.childList.filter (fun c => c.tag? = some Tag.importDecl)).map
    (fun c => c.getAttribute "import-spec")

end Ast

/-- A node position inside a rooted tree: the tree plus a child-index path.
This gives the model parent navigation (`getParent`, `getParentWithTag`). -/
structure Pos where
  root : Ast
  path : List Nat
deriving DecidableEq, Repr

namespace Pos

def cur (p : Pos) : Option Ast := p.root.get p.path

def tag? (p : Pos) : Option Tag := p.cur.bind Ast.tag?

/-- Source `getParent()`: `none` models the C++ null pointer. -/
def parent (p : Pos) : Option Pos :=
  if p.path = [] then none else some ⟨p.root, p.path.dropLast⟩

/-- Ancestor search over the reversed path: drop trailing indices until the
addressed node has the wanted tag. -/
def parentWithTagAux (root : Ast) (tg : Tag) : List Nat → Option (List Nat)
  | [] => if (root.get []).bind Ast.tag? = some tg then some [] else none
  | i :: rest =>
    if (root.get ((i :: rest).reverse)).bind Ast.tag? = some tg then some ((i :: rest).reverse)
    else parentWithTagAux root tg rest

/-- Source `getParentWithTag(tag)` from the external `ASTNode` class.  Modelled from
the spec (data-model navigation: "nearest ancestor with tag"), starting at
the node itself — line 491 applies it to a node that may itself be the
`ned-file` root, so the search must include the start node. -/
def parentWithTag (p : Pos) (tg : Tag) : Option Pos :=
  (parentWithTagAux p.root tg p.path.reverse).map (fun q => Pos.mk p.root q)

end Pos

/-! ## The name resolver -/

/-- Oracle for `PatternMatcher` from `common/patternmatcher.h` (external, out of spec
scope).  `containsWildcards` and `matches` are oracle parameters. -/
structure PatternOps where
  containsWildcards : String → Bool
  patMatches : (pattern : String) → (qname : String) → Bool

/-- Struct `NedLookupContext` (declared in the missing header; shape per spec 4.6:
the syntactic element enclosing the reference, and the QName of the
enclosing type or empty). -/
structure NedLookupContext where
  element : Pos
  qname : String
deriving Repr

/-- Source `getParentContextOf(qname, node)` (source lines 457-465).  `none` models
the null dereference the C++ performs when `node` has no parent (or the
parent is a `types` block at the root). -/
def getParentContextOf (qname : String) (node : Pos) : Option NedLookupContext :=
  match node.parent with
  | none => none
  | some ctx0 =>
    match ctx0.tag? with
    | none => none
    | some t =>
      let ctxNode? := if t = Tag.typesBlock then ctx0.parent else some ctx0
      match ctxNode? with
      | none => none
      | some ctxNode => some ⟨ctxNode, (beforeLastDot? qname).getD ""⟩

/-- The exact-import shortcut loop of `resolveNedType` (source lines
498-503): scans **all** imports of the file in order and returns the first
one that the oracle contains and that ends with `"." + name` or equals
`name`.  Note: despite the comment in the source, no wildcard filter is
applied here. -/
def exactImportLookup (qnames imports : List String) (nedTypeName : String) : Option String :=
  imports.find? (fun imp =>
    qnames.contains imp && (strEndsWith imp ("." ++ nedTypeName) || imp == nedTypeName))

/-- The wildcard-import loop of `resolveNedType` (source lines 513-525):
for each wildcard-containing import in order, scan the oracle in order and
return the first QName that fits the `"." + name`/equality test and matches
the pattern; `""` if nothing matches. -/
def wildcardImportLookup (pm : PatternOps) (imports : List String)
    (nedTypeName : String) (qnames : List String) : String :=
  match imports with
  | [] => ""
  | imp :: rest =>
    if pm.containsWildcards imp then
      match qnames.find? (fun q =>
          (strEndsWith q ("." ++ nedTypeName) || q == nedTypeName) && pm.patMatches imp q) with
      | some q => q
      | none => wildcardImportLookup pm rest nedTypeName qnames
    else wildcardImportLookup pm rest nedTypeName qnames

/-- Source `resolveNedType(context, nedTypeName, qnames)` (source lines 467-534).
Returns `some ""` for "not found" (the C++ empty string); `none` models
undefined behaviour of the C++ (null dereference at lines 478/491/495, or
the failed `Assert` at line 482). -/
def resolveNedType (pm : PatternOps) (context : NedLookupContext)
    (nedTypeName : String) (qnames : List String) : Option String :=
  if ¬ strContainsChar nedTypeName '.' then
    -- simple name: (a) inner type, (b) exact import, (c) same package, (d) wildcard
    let stepA : Option (Option String) :=
      if context.element.tag? = some Tag.compoundModule then
        match context.element.parent with
        | none => none  -- getParent() is null; getParentWithTag on it is UB
        | some par =>
          let contextIsInnerType := (par.parentWithTag Tag.compoundModule).isSome
          let base? : Option String :=
            if contextIsInnerType then beforeLastDot? context.qname  -- Assert(index != -1)
            else some context.qname
          match base? with
          | none => none
          | some base =>
            let q := base ++ "." ++ nedTypeName
            if qnames.contains q then some (some q) else some none
      else some none
    match stepA with
    | none => none
    | some (some q) => some q
    | some none =>
      match context.element.parentWithTag Tag.file with
      | none => none  -- nedfileNode is null; getFirstImportChild on it is UB
      | some filePos =>
        match filePos.cur with
        | none => none
        | some fileNode =>
          let imports := fileNode.importSpecs
          match exactImportLookup qnames imports nedTypeName with
          | some imp => some imp
          | none =>
            let packageName :=
              match fileNode.firstChildWithTag Tag.packageDecl with
              | some p => p.getAttribute "name"
              | none => ""
            let q := if packageName = "" then nedTypeName
                     else packageName ++ "." ++ nedTypeName
            if qnames.contains q then some q
            else some (wildcardImportLookup pm imports nedTypeName qnames)
  else
    -- fully qualified name
    some (if qnames.contains nedTypeName then nedTypeName else "")

/-- Step (b) as the spec words it ("For each import that contains no
wildcard characters, return it if the oracle contains it and it equals `r`
or ends with `"." + r`"); kept for comparison with `exactImportLookup`,
which is what the source actually runs. -/
def exactImportLookupSpec (pm : PatternOps) (qnames imports : List String)
    (nedTypeName : String) : Option String :=
  (imports.filter (fun imp => ¬ pm.containsWildcards imp)).find? (fun imp =>
    qnames.contains imp && (strEndsWith imp ("." ++ nedTypeName) || imp == nedTypeName))

/-! ## Cache state and errors -/

/-- Struct `PendingNedType` (shape per the struct used at line 273 and spec 3:
QName, inner-type flag, AST node). -/
structure PendingNedType where
  qname : String
  isInnerType : Bool
  node : Pos
deriving DecidableEq, Repr

/-- Struct `NedTypeInfo` (external class `nedtypeinfo.cc`; only the constructor
arguments of line 359 are relevant here). -/
structure NedTypeInfo where
  qname : String
  isInnerType : Bool
  node : Pos
deriving DecidableEq, Repr

/-- The exceptions thrown by the source; the message payload is kept
structurally rather than as a formatted string. -/
inductive Err where
  /-- a `NedException` whose message content no claim depends on -/
  | nedError (msg : String)
  /-- line 336: "Redeclaration of tag qname" -/
  | redeclaration (tag : Option Tag) (qname : String)
  /-- lines 350-353: unresolved pending types, in pending-list order -/
  | unresolvedTypes (qnames : List String)
  /-- line 153: "Declared package ... does not match expected package ..." -/
  | packageMismatch (declared expected : String) (file : String)
  /-- a failed `Assert` (e.g. line 249 in `addFile`) -/
  | assertFailed
  /-- undefined behaviour (null dereference) -/
  | ub
  /-- line 100: wrapper "Could not load NED sources from folder" -/
  | folderLoadFailed (folder : String) (inner : Err)
deriving DecidableEq, Repr

/-- The mutable state of a `NedResourceCache` instance.  All maps are
insertion-ordered assoc lists (spec-modelled; the map types are declared in
the missing `nedresourcecache.h`, and the spec fixes the type index's
iteration order to insertion order). -/
structure CacheState where
  nedFiles : List (String × Ast)
  packageDotNedFiles : List (String × Ast)
  folderPackages : List (String × String)
  pendingList : List PendingNedType
  nedTypes : List (String × NedTypeInfo)
  nedTypeNames : List String
  doneLoadingNedFilesCalled : Bool
deriving DecidableEq, Repr

/-- The empty cache, as constructed. -/
def CacheState.initial : CacheState :=
  ⟨[], [], [], [], [], [], false⟩

/-- The "available names" oracle handed to the resolver when checking
dependencies: the currently registered QNames.  Modelled from the spec
("membership test and indexed enumeration over currently registered
QNames"; "The oracle's iteration order is insertion order into the type
index") — the two-argument `resolveNedType` overload lives in the missing
header. -/
def typeNamesOf (st : CacheState) : List String :=
  st.nedTypes.map Prod.fst

/-- A stateful result: the state as of return or throw, and the outcome. -/
abbrev StepR (α : Type) := CacheState × Except Err α

/-! ## Registration -/

/-- Source `lookup(qname)` (source lines 364-369). -/
def lookup (st : CacheState) (qname : String) : Option NedTypeInfo :=
  mapGet st.nedTypes qname

/-- Source `registerNedType(qname, isInnerType, node)` (source lines 357-362). -/
def registerNedType (st : CacheState) (qname : String) (isInnerType : Bool)
    (node : Pos) : CacheState :=
  { st with
    nedTypes := mapInsert st.nedTypes qname ⟨qname, isInnerType, node⟩
    nedTypeNames := [] }

/-- Source `areDependenciesResolved(qname, node)` (source lines 276-290): the
reference of every `extends`/`interface-name` child must resolve.  `none`
models undefined behaviour inside the resolver (or a node position that
does not exist in its tree, which the C++ pointer version cannot express). -/
def depsResolvedChildren (pm : PatternOps) (context : NedLookupContext)
    (qnames : List String) : List Ast → Option Bool
  | [] => some true
  | c :: rest =>
    if c.tag? = some Tag.extendsDecl ∨ c.tag? = some Tag.interfaceName then
      match resolveNedType pm context (c.getAttribute "name") qnames with
      | none => none
      | some q => if q = "" then some false else depsResolvedChildren pm context qnames rest
    else depsResolvedChildren pm context qnames rest

def areDependenciesResolved (pm : PatternOps) (qnames : List String)
    (qname : String) (node : Pos) : Option Bool :=
  match getParentContextOf qname node with
  | none => none
  | some context =>
    match node.cur with
    | none => none
    | some ast => depsResolvedChildren pm context qnames ast.childList

/-- The body of the promotion branch of `registerPendingNedTypes` (source
lines 334-338): the redeclaration guard, then `registerNedType`. -/
def registerResolvedPendingType (st : CacheState) (t : PendingNedType) : StepR Unit :=
  if (lookup st t.qname).isSome then
    (st, .error (.redeclaration t.node.tag? t.qname))
  else
    (registerNedType st t.qname t.isInnerType t.node, .ok ())

/-- The loop nest of `registerPendingNedTypes` (source lines 329-343),
merged into one tail-recursive function: position `i` scans the pending
list; an entry whose dependencies resolve is promoted and erased with the
index kept in place (the `i--` before the loop's `i++`), setting `again`;
at the end of a pass the scan restarts from 0 when `again` is set (the
enclosing `while (again)`), and finishes otherwise.  The iteration
sequence is exactly that of the two nested loops in the source. -/
def registerLoop (pm : PatternOps) (st : CacheState) (i : Nat) (again : Bool) :
    StepR Unit :=
  if h : i < st.pendingList.length then
    let t := st.pendingList.get ⟨i, h⟩
    match areDependenciesResolved pm (typeNamesOf st) t.qname t.node with
    | none => (st, .error .ub)
    | some false => registerLoop pm st (i + 1) again
    | some true =>
      match h2 : registerResolvedPendingType st t with
      | (st', .error e) => (st', .error e)
      | (st', .ok ()) =>
          registerLoop pm { st' with pendingList := st'.pendingList.eraseIdx i } i true
  else if again then registerLoop pm st 0 false
  else (st, .ok ())
termination_by
  (st.pendingList.length + (if again then 1 else 0), st.pendingList.length - i)
decreasing_by
  · apply Prod.Lex.right
    omega
  · have hp : st'.pendingList = st.pendingList := by
      simp only [registerResolvedPendingType] at h2
      split at h2
      · simp at h2
      · simp only [registerNedType, Prod.mk.injEq] at h2
        obtain ⟨h3, -⟩ := h2
        rw [← h3]
    rw [Prod.lex_def]
    simp only [hp, List.length_eraseIdx, h]
    cases again <;> simp <;> omega
  · rw [Prod.lex_def]
    simp only []
    split <;> simp_all

/-- Source `registerPendingNedTypes()` (source lines 327-355): run the fixed
point, then fail if anything is left pending, naming the unresolved
QNames in pending-list order (the source formats them into one message,
distinguishing only singular from plural wording). -/
def registerPendingNedTypes (pm : PatternOps) (st : CacheState) : StepR Unit :=
  match registerLoop pm st 0 false with
  | (st', .error e) => (st', .error e)
  | (st', .ok ()) =>
    if st'.pendingList.isEmpty then (st', .ok ())
    else (st', .error (.unresolvedTypes (st'.pendingList.map PendingNedType.qname)))

/-! ## Type collection -/

/-- The first child of a node (`nil` when there is none). -/
def Ast.firstChild? : Ast → Ast
  | .nil => .nil
  | .node _ _ c _ => c

mutual
/-- Source `collectNedTypesFrom(node, packagePrefix, areInnerTypes)` (source lines
254-268) over a sibling chain of children: for each child whose tag is one
of the five type tags, emit a pending entry (`collectNedType`, line 273,
appends in visit order), then descend into its first `types` child if any.
`path` is the position of the parent, `i` the index of the head of `chain`
among the parent's children. -/
def collectChainTypes (root : Ast) (path : List Nat) (chain : Ast) (i : Nat)
    (packagePrefix : String) (areInnerTypes : Bool) : List PendingNedType :=
  match chain with
  | .nil => []
  | .node tg attrs c s =>
    if tg.isTypeTag then
      let qname := packagePrefix ++ (Ast.node tg attrs c s).getAttribute "name"
      PendingNedType.mk qname areInnerTypes ⟨root, path ++ [i]⟩ ::
        (collectTypesBlock root (path ++ [i]) c 0 qname ++
          collectChainTypes root path s (i + 1) packagePrefix areInnerTypes)
    else collectChainTypes root path s (i + 1) packagePrefix areInnerTypes

/-- The `getFirstChildWithTag(NED_TYPES)` step of line 264: find the first
`types` child (position index `j` in the chain) and collect the inner
types from it with prefix `qname + "."`. -/
def collectTypesBlock (root : Ast) (path : List Nat) (chain : Ast) (j : Nat)
    (qname : String) : List PendingNedType :=
  match chain with
  | .nil => []
  | .node tg _ c s =>
    if tg = Tag.typesBlock then
      collectChainTypes root (path ++ [j]) c 0 (qname ++ ".") true
    else collectTypesBlock root path s (j + 1) qname
end

/-- Source `collectNedTypesFrom` entry point: visit the children of `node`. -/
def collectNedTypesFrom (node : Pos) (packagePrefix : String)
    (areInnerTypes : Bool) : List PendingNedType :=
  match node.cur with
  | none => []
  | some a => collectChainTypes node.root node.path a.firstChild? 0 packagePrefix areInnerTypes

/-! ## File loading -/

/-- The external collaborators (parser, validators, filesystem probes),
out of the spec's scope, modelled as oracles.  Each parser returns the
assembled first error message (the `ErrorStore`/`getFirstError` plumbing)
or the parsed tree. -/
structure Env where
  /-- Oracle for `NedParser::parseNedFile(fname)`, resolved against the current
  directory `cwd`. -/
  parseNedFile : (cwd fname : String) → Except String Ast
  /-- Oracle for `NedParser::parseNedText(text, fname)`. -/
  parseNedText : (text fname : String) → Except String Ast
  /-- Oracle for `parseXML(fname)`. -/
  parseXML : (cwd fname : String) → Except String Ast
  /-- Oracle for `NedDtdValidator`: `some msg` when validation records an error. -/
  dtdValidate : Ast → Option String
  /-- Oracle for `NedSyntaxValidator`. -/
  syntaxValidate : Ast → Option String
  /-- Oracle for `fileExists(path)` relative to `cwd`. -/
  fileExists : (cwd path : String) → Bool
  /-- Oracle for `NedParser::getBuiltInDeclarations()`. -/
  builtinDeclsText : String

/-- Source `parseAndValidateNedFileOrText(fname, nedText, isXML)` (source lines
167-208). -/
def parseAndValidateNedFileOrText (env : Env) (cwd fname : String)
    (nedText : Option String) (isXML : Bool) : Except Err Ast :=
  let parsed : Except Err Ast :=
    if isXML then
      match nedText with
      | some _ => .error (.nedError "loadNedText(): Parsing XML from string not supported")
      | none =>
        match env.parseXML cwd fname with
        | .error msg => .error (.nedError msg)
        | .ok tree => .ok tree
    else
      match nedText with
      | some text =>
        match env.parseNedText text fname with
        | .error msg => .error (.nedError msg)
        | .ok tree => .ok tree
      | none =>
        match env.parseNedFile cwd fname with
        | .error msg => .error (.nedError msg)
        | .ok tree => .ok tree
  match parsed with
  | .error e => .error e
  | .ok tree =>
    match env.dtdValidate tree with
    | some msg => .error (.nedError ("NED internal DTD validation failure: " ++ msg))
    | none =>
      match env.syntaxValidate tree with
      | some msg => .error (.nedError msg)
      | none =>
        -- dynamic_cast<NedFileElement*>: the root must be a ned-file element
        if tree.tag? = some Tag.file then .ok tree
        else .error (.nedError ("ned-file expected as root element, in file " ++ fname))

/-- Source `addFile(nedFilename, node)` (source lines 247-252); the `Assert` that
the key is absent is modelled as a hard failure. -/
def addFile (st : CacheState) (nedFilename : String) (node : Ast) : StepR Unit :=
  if containsKey st.nedFiles nedFilename then (st, .error .assertFailed)
  else ({ st with nedFiles := mapInsert st.nedFiles nedFilename node }, .ok ())

/-- Source `doLoadNedFileOrText(nedFilename, nedText, expectedPackage, isXML)`
(source lines 134-165). -/
def doLoadNedFileOrText (env : Env) (pm : PatternOps) (cwd : String) (st : CacheState)
    (nedFilename : String) (nedText : Option String) (expectedPackage : Option String)
    (isXML : Bool) : StepR Unit :=
  let canonicalFilename := if nedText.isSome then nedFilename else canonicalize cwd nedFilename
  if containsKey st.nedFiles canonicalFilename then (st, .ok ())
  else if st.doneLoadingNedFilesCalled ∧ isPackageNedFile canonicalFilename then
    (st, .error (.nedError ("Cannot load " ++ canonicalFilename ++
      ": package.ned files can no longer be loaded at this point")))
  else
    match parseAndValidateNedFileOrText env cwd canonicalFilename nedText isXML with
    | .error e => (st, .error e)
    | .ok tree =>
      let declaredPackage :=
        match tree.firstChildWithTag Tag.packageDecl with
        | some p => p.getAttribute "name"
        | none => ""
      let proceed : StepR Unit :=
        match addFile st canonicalFilename tree with
        | (st1, .error e) => (st1, .error e)
        | (st1, .ok ()) =>
          if st1.doneLoadingNedFilesCalled then
            let packagePrefix := if declaredPackage = "" then "" else declaredPackage ++ "."
            let newPending := st1.pendingList ++ collectNedTypesFrom ⟨tree, []⟩ packagePrefix false
            registerPendingNedTypes pm { st1 with pendingList := newPending }
          else (st1, .ok ())
      match expectedPackage with
      | some ep =>
        if declaredPackage ≠ ep then
          (st, .error (.packageMismatch declaredPackage ep nedFilename))
        else proceed
      | none => proceed

/-- Source `loadNedFile(nedFilename, expectedPackage, isXML)` (source lines
232-238); the null-filename check has no counterpart for Lean strings. -/
def loadNedFile (env : Env) (pm : PatternOps) (cwd : String) (st : CacheState)
    (nedFilename : String) (expectedPackage : Option String) (isXML : Bool) : StepR Unit :=
  doLoadNedFileOrText env pm cwd st nedFilename none expectedPackage isXML

/-- Source `loadNedText(name, nedText, expectedPackage, isXML)` (source lines
240-245). -/
def loadNedText (env : Env) (pm : PatternOps) (cwd : String) (st : CacheState)
    (name nedText : String) (expectedPackage : Option String) (isXML : Bool) : StepR Unit :=
  doLoadNedFileOrText env pm cwd st name (some nedText) expectedPackage isXML

/-- Source `registerBuiltinDeclarations()` (source lines 54-71): parse the
built-in declarations from memory and `addFile` them under the fixed
synthetic key.  The `Assert(nedFileElement)` after the `dynamic_cast` is
modelled as `assertFailed`. -/
def registerBuiltinDeclarations (env : Env) (st : CacheState) : StepR Unit :=
  match env.parseNedText env.builtinDeclsText "built-in-declarations" with
  | .error msg => (st, .error (.nedError msg))
  | .ok tree =>
    if tree.tag? = some Tag.file then
      addFile st "/[built-in-declarations]/package.ned" tree
    else (st, .error .assertFailed)

/-! ## Folder loading -/

/-- A filesystem directory listing, in globbing order (`FileGlobber("*")`),
as a sibling-linked chain of entries. -/
inductive Fs where
  | nilE
  | dirE (name : String) (contents : Fs) (next : Fs)
  | fileE (name : String) (next : Fs)
deriving DecidableEq, Repr

/-- Source `determineRootPackageName(nedSourceFolderName)` (source lines 399-413). -/
def determineRootPackageName (env : Env) (cwd folderName : String) : Except Err String :=
  let packageNedFilename := folderName ++ "/package.ned"
  if ¬ env.fileExists cwd packageNedFilename then .ok ""
  else
    match parseAndValidateNedFileOrText env cwd packageNedFilename none false with
    | .error e => .error e
    | .ok tree =>
      match tree.firstChildWithTag Tag.packageDecl with
      | some p => .ok (p.getAttribute "name")
      | none => .ok ""

/-- Is this folder's expected package excluded?  The guard of source line
106: the root package `""` cannot be excluded. -/
def packageExcluded (expectedPackage : Option String) (excludedPackages : List String) : Bool :=
  match expectedPackage with
  | some p => p != "" && excludedPackages.contains p
  | none => false

/-- The globbing loop of `doLoadNedSourceFolder` (source lines 112-125)
over the remaining entries of the folder at `cwd`.  The recursion into a
subdirectory (line 119) re-checks the exclusion guard (the head of
`doLoadNedSourceFolder`) and resolves the new working directory
(`PushDir`); both are inlined here so that the recursion is structural on
the directory tree. -/
def walkFolderEntries (env : Env) (pm : PatternOps) (cwd : String) (st : CacheState)
    (entries : Fs) (expectedPackage : Option String) (excludedPackages : List String) :
    StepR Nat :=
  match entries with
  | .nilE => (st, .ok 0)
  | .dirE name sub next =>
    if strStartsWith name "." then
      walkFolderEntries env pm cwd st next expectedPackage excludedPackages
    else
      let subPackage := expectedPackage.map (fun p => oppJoin "." p name)
      let subResult :=
        if packageExcluded subPackage excludedPackages then (st, .ok 0)
        else walkFolderEntries env pm (canonicalize cwd name) st sub subPackage excludedPackages
      match subResult with
      | (st1, .error e) => (st1, .error e)
      | (st1, .ok n1) =>
        match walkFolderEntries env pm cwd st1 next expectedPackage excludedPackages with
        | (st2, .error e) => (st2, .error e)
        | (st2, .ok n2) => (st2, .ok (n1 + n2))
  | .fileE name next =>
    if strStartsWith name "." then
      walkFolderEntries env pm cwd st next expectedPackage excludedPackages
    else if strEndsWith name ".ned" then
      match doLoadNedFileOrText env pm cwd st name none expectedPackage false with
      | (st1, .error e) => (st1, .error e)
      | (st1, .ok ()) =>
        match walkFolderEntries env pm cwd st1 next expectedPackage excludedPackages with
        | (st2, .error e) => (st2, .error e)
        | (st2, .ok n2) => (st2, .ok (n2 + 1))
    else walkFolderEntries env pm cwd st next expectedPackage excludedPackages

/-- Source `doLoadNedSourceFolder(folderName, expectedPackage, excludedPackages)`
(source lines 104-127): skip an excluded non-root package subtree, else
walk the directory, returning the number of `.ned` files encountered. -/
def doLoadNedSourceFolder (env : Env) (pm : PatternOps) (cwd : String) (st : CacheState)
    (folderName : String) (contents : Fs) (expectedPackage : Option String)
    (excludedPackages : List String) : StepR Nat :=
  if packageExcluded expectedPackage excludedPackages then (st, .ok 0)
  else
    walkFolderEntries env pm (canonicalize cwd folderName) st contents expectedPackage
      excludedPackages

/-- Source `loadNedSourceFolder(folderName, excludedPackagesStr)` (source lines
87-102): split the excluded-package list, record the canonical
folder → root package mapping, then recurse; any exception is wrapped into
the "Could not load NED sources" error without rolling the state back. -/
def loadNedSourceFolder (env : Env) (pm : PatternOps) (cwd : String) (st : CacheState)
    (folderName : String) (contents : Fs) (excludedPackagesStr : String) : StepR Nat :=
  let excludedPackages := (splitAndTrim excludedPackagesStr ';').filter (fun p => p ≠ "")
  match determineRootPackageName env cwd folderName with
  | .error e => (st, .error (.folderLoadFailed folderName e))
  | .ok rootPackageName =>
    let canonicalFolderName := canonicalize cwd folderName
    let newFolderPackages := mapInsert st.folderPackages canonicalFolderName rootPackageName
    let st1 := { st with folderPackages := newFolderPackages }
    match doLoadNedSourceFolder env pm cwd st1 folderName contents
        (some rootPackageName) excludedPackages with
    | (st2, .error e) => (st2, .error (.folderLoadFailed folderName e))
    | (st2, .ok n) => (st2, .ok n)

/-! ## Folder queries and the type-name listing -/

/-- Source `getNedSourceFolderForFolder(folder)` (source lines 431-441). -/
def getNedSourceFolderForFolder (cwd : String) (st : CacheState) (folder : String) : String :=
  let folderName := canonicalize cwd folder
  match st.folderPackages.find? (fun fp => isPathPrefixOf fp.1 folderName) with
  | some fp => fp.1
  | none => ""

/-- Source `getNedPackageForFolder(folder)` (source lines 443-455). -/
def getNedPackageForFolder (cwd : String) (st : CacheState) (folder : String) : String :=
  let sourceFolder := getNedSourceFolderForFolder cwd st folder
  if sourceFolder = "" then ""
  else
    let folderName := canonicalize cwd folder
    let suffix0 := String.mk (folderName.toList.drop sourceFolder.length)
    let suffix := if suffix0.toList.head? = some '/' then String.mk suffix0.toList.tail else suffix0
    let subpackage := String.mk (suffix.toList.map (fun ch => if ch = '/' then '.' else ch))
    oppJoin "." ((mapGet st.folderPackages sourceFolder).getD "") subpackage

/-- Source `getTypeNames()` (source lines 536-544): lazily fill the cached
listing from the type index (insertion order, per the spec's oracle
contract), returning the updated cache alongside the list. -/
def getTypeNames (st : CacheState) : CacheState × List String :=
  if st.nedTypeNames.isEmpty ∧ ¬ st.nedTypes.isEmpty then
    let names := st.nedTypes.map Prod.fst
    ({ st with nedTypeNames := names }, names)
  else (st, st.nedTypeNames)

/-! ## Specification-side definitions

These follow the wording of the specification (not the source); they exist
to be compared against the definitions above. -/

/-- The claim's description of the walk's count: a directory subtree whose
inferred expected package is non-empty and excluded contributes zero, and
every (non-dot) `.ned` file encountered elsewhere contributes exactly
one. -/
def specNedFileCount : Fs → Option String → List String → Nat
  | .nilE, _, _ => 0
  | .dirE name sub next, p, excl =>
    (if strStartsWith name "." then 0
     else
       let p' := p.map (fun q => oppJoin "." q name)
       if packageExcluded p' excl then 0
       else specNedFileCount sub p' excl) + specNedFileCount next p excl
  | .fileE name next, p, excl =>
    (if ¬ strStartsWith name "." ∧ strEndsWith name ".ned" then 1 else 0) +
      specNedFileCount next p excl

/-- The spec-side count for a whole source folder, including the exclusion
check on the folder's own expected package. -/
def specNedFileCountDir (contents : Fs) (p : Option String) (excl : List String) : Nat :=
  if packageExcluded p excl then 0 else specNedFileCount contents p excl

/-- The resolver as the claim describes it, with the exact-import step
restricted to wildcard-free imports (`exactImportLookupSpec`); everything
else as in `resolveNedType`.  Exists only to be compared with the source
resolver. -/
def resolveNedTypeSpecB (pm : PatternOps) (context : NedLookupContext)
    (nedTypeName : String) (qnames : List String) : Option String :=
  if ¬ strContainsChar nedTypeName '.' then
    let stepA : Option (Option String) :=
      if context.element.tag? = some Tag.compoundModule then
        match context.element.parent with
        | none => none
        | some par =>
          let contextIsInnerType := (par.parentWithTag Tag.compoundModule).isSome
          let base? : Option String :=
            if contextIsInnerType then beforeLastDot? context.qname
            else some context.qname
          match base? with
          | none => none
          | some base =>
            let q := base ++ "." ++ nedTypeName
            if qnames.contains q then some (some q) else some none
      else some none
    match stepA with
    | none => none
    | some (some q) => some q
    | some none =>
      match context.element.parentWithTag Tag.file with
      | none => none
      | some filePos =>
        match filePos.cur with
        | none => none
        | some fileNode =>
          let imports := fileNode.importSpecs
          match exactImportLookupSpec pm qnames imports nedTypeName with
          | some imp => some imp
          | none =>
            let packageName :=
              match fileNode.firstChildWithTag Tag.packageDecl with
              | some p => p.getAttribute "name"
              | none => ""
            let q := if packageName = "" then nedTypeName
                     else packageName ++ "." ++ nedTypeName
            if qnames.contains q then some q
            else some (wildcardImportLookup pm imports nedTypeName qnames)
  else
    some (if qnames.contains nedTypeName then nedTypeName else "")

/-! ## Concrete fixtures

Builders and concrete inputs used by the witness theorems. -/

/-- Replace a node's following-sibling chain (tree-building helper). -/
def Ast.withNext : Ast → Ast → Ast
  | .nil, _ => .nil
  | .node t a c _, s => .node t a c s

/-- Build a node from a list of child subtrees. -/
def mkNode (tag : Tag) (attrs : List (String × String)) (children : List Ast) : Ast :=
  .node tag attrs (children.foldr (fun c acc => c.withNext acc) .nil) .nil

/-- A pattern-matcher oracle: `*` counts as a wildcard character and no
pattern matches anything (matching behaviour is irrelevant to the
fixtures that use it). -/
def pmW : PatternOps := ⟨fun s => strContainsChar s '*', fun _ _ => false⟩

/-- Tree for `package p; simple A extends B; simple B; module C with inner type Inner`. -/
def wbFile : Ast := mkNode .file [] [
  mkNode .packageDecl [("name", "p")] [],
  mkNode .simpleModule [("name", "A")] [mkNode .extendsDecl [("name", "B")] []],
  mkNode .simpleModule [("name", "B")] [],
  mkNode .compoundModule [("name", "C")]
    [mkNode .typesBlock [] [mkNode .simpleModule [("name", "Inner")] []]]
]

/-- A file whose only import is the wildcard pattern `x.*`. -/
def wiFile : Ast := mkNode .file [] [mkNode .importDecl [("import-spec", "x.*")] []]

/-- A file with the import `a.Base` and a compound module `M`: a context
inside `M` (enclosing type `p.M`) falls through the inner-type step for
the reference `Base` (the oracle has no `p.M.Base`) and reaches the
exact-import step. -/
def c4File : Ast := mkNode .file [] [
  mkNode .importDecl [("import-spec", "a.Base")] [],
  mkNode .compoundModule [("name", "M")] []
]

/-- An environment whose parser always yields `wbFile` and whose
filesystem has no `package.ned` markers. -/
def envW : Env := {
  parseNedFile := fun _ _ => .ok wbFile
  parseNedText := fun _ _ => .ok wbFile
  parseXML := fun _ _ => .error "no xml"
  dtdValidate := fun _ => none
  syntaxValidate := fun _ => none
  fileExists := fun _ _ => false
  builtinDeclsText := "builtins"
}

/-- Like `envW` but with a `package.ned` marker in every folder. -/
def envWP : Env := { envW with fileExists := fun _ _ => true }

/-- A cache with one pending type with no dependencies (`simple B` of
`wbFile`). -/
def stW1 : CacheState :=
  { CacheState.initial with pendingList := [⟨"p.B", false, ⟨wbFile, [2]⟩⟩] }

/-- The expected outcome of running the registrar on `stW1`. -/
def stW1' : CacheState :=
  { CacheState.initial with nedTypes := [("p.B", ⟨"p.B", false, ⟨wbFile, [2]⟩⟩)] }

/-- A cache that already holds the file `/w/a.ned`. -/
def stW2 : CacheState := { CacheState.initial with nedFiles := [("/w/a.ned", wbFile)] }

/-- A matcher where patterns with `*` are wildcards and every pattern
matches exactly the QNames starting with `x.` (enough to exercise the
wildcard-import loop). -/
def pmW5 : PatternOps := ⟨fun s => strContainsChar s '*', fun _ q => strStartsWith q "x."⟩

/-- A cache with the registered source folder `/w/root`, root package `p`. -/
def stW6 : CacheState := { CacheState.initial with folderPackages := [("/w/root", "p")] }

/-- The cache after registering the built-in declarations of `envW`. -/
def stW10 : CacheState :=
  { CacheState.initial with nedFiles := [("/[built-in-declarations]/package.ned", wbFile)] }

/-- A folder with a subfolder `sub` holding `M.ned` and a dotfile, plus a
top-level `Top.ned`. -/
def fsW : Fs := .dirE "sub" (.fileE "M.ned" (.fileE ".hidden.ned" .nilE)) (.fileE "Top.ned" .nilE)

/-- A folder holding a single `Top.ned`; loading it under `envW` fails
with a package mismatch (the file declares `p`, the root package is
empty). -/
def fsW8 : Fs := .fileE "Top.ned" .nilE


/-! # Theorems

Helper lemmas first, then one theorem per claim (with witnesses). -/

theorem containsKey_iff_mem (m : List (String × α)) (k : String) :
    containsKey m k = true ↔ k ∈ m.map Prod.fst := by
  induction m with
  | nil => simp [containsKey, mapGet]
  | cons p rest ih =>
    simp only [containsKey, mapGet] at ih ⊢
    by_cases h : p.1 = k
    · rw [List.find?_cons_of_pos _ (by simp [h])]
      simp [h]
    · rw [List.find?_cons_of_neg _ (by simp [h])]
      simp only [List.map_cons, List.mem_cons]
      rw [ih]
      simp [Ne.symm h]

theorem mapInsert_keys (m : List (String × α)) (k : String) (v : α) :
    (mapInsert m k v).map Prod.fst =
      if k ∈ m.map Prod.fst then m.map Prod.fst else m.map Prod.fst ++ [k] := by
  induction m with
  | nil => simp [mapInsert]
  | cons p rest ih =>
    obtain ⟨k', v'⟩ := p
    by_cases h : k' = k
    · subst h
      simp [mapInsert]
    · simp only [mapInsert, if_neg h, List.map_cons, ih]
      by_cases h2 : k ∈ rest.map Prod.fst
      · simp [h2, Ne.symm h]
      · simp [h2, Ne.symm h]

theorem containsKey_mapInsert_self (m : List (String × α)) (k : String) (v : α) :
    containsKey (mapInsert m k v) k = true := by
  rw [containsKey_iff_mem, mapInsert_keys]
  split <;> simp_all

theorem containsKey_mapInsert_mono (m : List (String × α)) (k q : String) (v : α)
    (h : containsKey m q = true) : containsKey (mapInsert m k v) q = true := by
  rw [containsKey_iff_mem, mapInsert_keys]
  rw [containsKey_iff_mem] at h
  split <;> simp_all

theorem uniqueKeys_mapInsert (m : List (String × α)) (k : String) (v : α)
    (h : uniqueKeys m) : uniqueKeys (mapInsert m k v) := by
  unfold uniqueKeys at *
  rw [mapInsert_keys]
  split
  · exact h
  · rename_i h2
    rw [← List.concat_eq_append]
    exact h.concat h2

theorem mapGet_mapInsert_self (m : List (String × α)) (k : String) (v : α) :
    mapGet (mapInsert m k v) k = some v := by
  induction m with
  | nil => simp [mapInsert, mapGet]
  | cons p rest ih =>
    obtain ⟨k', v'⟩ := p
    by_cases h : k' = k
    · subst h
      simp [mapInsert, mapGet]
    · simp only [mapInsert, if_neg h, mapGet] at ih ⊢
      rw [List.find?_cons_of_neg _ (by simp [h])]
      exact ih

theorem mapInsert_of_absent (m : List (String × α)) (k : String) (v : α)
    (h : containsKey m k = false) : mapInsert m k v = m ++ [(k, v)] := by
  induction m with
  | nil => simp [mapInsert]
  | cons p rest ih =>
    obtain ⟨k', v'⟩ := p
    simp only [containsKey, mapGet] at h ih
    by_cases h2 : k' = k
    · rw [List.find?_cons_of_pos _ (by simp [h2])] at h
      simp at h
    · rw [List.find?_cons_of_neg _ (by simp [h2])] at h
      simp only [mapInsert, if_neg h2, List.cons_append, List.cons.injEq, true_and]
      exact ih h

theorem mem_eraseIdx_or (l : List α) (i : Nat) (h : i < l.length) (p : α) (hp : p ∈ l) :
    p ∈ l.eraseIdx i ∨ p = l.get ⟨i, h⟩ := by
  rw [List.eraseIdx_eq_take_drop_succ]
  have hl : l = l.take i ++ (l.get ⟨i, h⟩ :: l.drop (i + 1)) := by
    rw [List.get_eq_getElem, List.getElem_cons_drop, List.take_append_drop]
  rw [hl] at hp
  rcases List.mem_append.mp hp with h1 | h2
  · exact Or.inl (List.mem_append.mpr (Or.inl h1))
  · rcases List.mem_cons.mp h2 with h3 | h4
    · exact Or.inr h3
    · exact Or.inl (List.mem_append.mpr (Or.inr h4))

theorem rrpt_pendingList (st : CacheState) (t : PendingNedType) (st' : CacheState)
    (r : Except Err Unit) (h : registerResolvedPendingType st t = (st', r)) :
    st'.pendingList = st.pendingList := by
  unfold registerResolvedPendingType at h
  split at h <;> simp only [Prod.mk.injEq] at h <;> obtain ⟨h1, -⟩ := h <;>
    simp [← h1, registerNedType]

theorem rrpt_ok (st : CacheState) (t : PendingNedType) (st' : CacheState)
    (h : registerResolvedPendingType st t = (st', .ok ())) :
    lookup st t.qname = none ∧ st' = registerNedType st t.qname t.isInnerType t.node := by
  unfold registerResolvedPendingType at h
  split at h
  · exact absurd (Prod.mk.inj h).2 (by simp)
  · rename_i hl
    refine ⟨Option.not_isSome_iff_eq_none.mp (by simpa using hl), ((Prod.mk.inj h).1).symm⟩

theorem rrpt_types_mono (st : CacheState) (t : PendingNedType) (st' : CacheState)
    (r : Except Err Unit) (h : registerResolvedPendingType st t = (st', r)) (q : String)
    (hq : containsKey st.nedTypes q = true) : containsKey st'.nedTypes q = true := by
  unfold registerResolvedPendingType at h
  split at h <;> obtain ⟨h1, -⟩ := Prod.mk.inj h <;> rw [← h1]
  · exact hq
  · exact containsKey_mapInsert_mono _ _ _ _ hq

theorem rrpt_uniq (st : CacheState) (t : PendingNedType) (st' : CacheState)
    (r : Except Err Unit) (h : registerResolvedPendingType st t = (st', r))
    (hu : uniqueKeys st.nedTypes) : uniqueKeys st'.nedTypes := by
  unfold registerResolvedPendingType at h
  split at h <;> obtain ⟨h1, -⟩ := Prod.mk.inj h <;> rw [← h1]
  · exact hu
  · exact uniqueKeys_mapInsert _ _ _ hu

theorem rrpt_ok_registered (st : CacheState) (t : PendingNedType) (st' : CacheState)
    (h : registerResolvedPendingType st t = (st', .ok ())) :
    containsKey st'.nedTypes t.qname = true := by
  rw [(rrpt_ok st t st' h).2]
  exact containsKey_mapInsert_self _ _ _

theorem rrpt_frame (st : CacheState) (t : PendingNedType) (st' : CacheState)
    (r : Except Err Unit) (h : registerResolvedPendingType st t = (st', r)) :
    st'.nedFiles = st.nedFiles ∧ st'.packageDotNedFiles = st.packageDotNedFiles ∧
    st'.folderPackages = st.folderPackages ∧
    st'.doneLoadingNedFilesCalled = st.doneLoadingNedFilesCalled := by
  unfold registerResolvedPendingType at h
  split at h <;> obtain ⟨h1, -⟩ := Prod.mk.inj h <;> rw [← h1] <;>
    simp [registerNedType]


theorem rrpt_error (st : CacheState) (t : PendingNedType) (st' : CacheState) (e : Err)
    (h : registerResolvedPendingType st t = (st', .error e)) :
    e = .redeclaration t.node.tag? t.qname := by
  unfold registerResolvedPendingType at h
  split at h
  · exact ((Except.error.inj (Prod.mk.inj h).2)).symm
  · exact absurd (Prod.mk.inj h).2 (by simp)

theorem registerLoop_types_mono (pm : PatternOps) (st : CacheState) (i : Nat) (again : Bool) :
    ∀ st2 r, registerLoop pm st i again = (st2, r) →
      ∀ q, containsKey st.nedTypes q = true → containsKey st2.nedTypes q = true := by
  induction st, i, again using registerLoop.induct pm with
  | case1 st i again h t hdeps =>
    intro st2 r heq q hq
    rw [registerLoop.eq_def] at heq
    simp only [dif_pos h, hdeps] at heq
    obtain ⟨rfl, -⟩ := Prod.mk.inj heq
    exact hq
  | case2 st i again h t hdeps ih =>
    intro st2 r heq q hq
    rw [registerLoop.eq_def] at heq
    simp only [dif_pos h, hdeps] at heq
    exact ih st2 r heq q hq
  | case3 st i again h t hdeps st' e herr =>
    intro st2 r heq q hq
    rw [registerLoop.eq_def] at heq
    simp only [dif_pos h, hdeps] at heq
    split at heq
    · rename_i st'' e' h2
      obtain ⟨rfl, -⟩ := Prod.mk.inj heq
      exact rrpt_types_mono st _ _ _ h2 q hq
    · rename_i st'' h2
      rw [herr] at h2
      exact absurd (Prod.mk.inj h2).2 (by simp)
  | case4 st i again h t hdeps st' hok ih =>
    intro st2 r heq q hq
    rw [registerLoop.eq_def] at heq
    simp only [dif_pos h, hdeps] at heq
    split at heq
    · rename_i st'' e' h2
      rw [hok] at h2
      exact absurd (Prod.mk.inj h2).2 (by simp)
    · rename_i st'' h2
      rw [hok] at h2
      obtain ⟨rfl, -⟩ := Prod.mk.inj h2
      exact ih st2 r heq q (rrpt_types_mono st t st' (.ok ()) hok q hq)
  | case5 st i h ih =>
    intro st2 r heq q hq
    rw [registerLoop.eq_def] at heq
    simp only [dif_neg h, if_pos rfl] at heq
    exact ih st2 r heq q hq
  | case6 st i again h ha =>
    intro st2 r heq q hq
    rw [registerLoop.eq_def] at heq
    simp only [dif_neg h, if_neg ha] at heq
    obtain ⟨rfl, -⟩ := Prod.mk.inj heq
    exact hq

theorem registerLoop_uniq (pm : PatternOps) (st : CacheState) (i : Nat) (again : Bool) :
    ∀ st2 r, registerLoop pm st i again = (st2, r) →
      uniqueKeys st.nedTypes → uniqueKeys st2.nedTypes := by
  induction st, i, again using registerLoop.induct pm with
  | case1 st i again h t hdeps =>
    intro st2 r heq hu
    rw [registerLoop.eq_def] at heq
    simp only [dif_pos h, hdeps] at heq
    obtain ⟨rfl, -⟩ := Prod.mk.inj heq
    exact hu
  | case2 st i again h t hdeps ih =>
    intro st2 r heq hu
    rw [registerLoop.eq_def] at heq
    simp only [dif_pos h, hdeps] at heq
    exact ih st2 r heq hu
  | case3 st i again h t hdeps st' e herr =>
    intro st2 r heq hu
    rw [registerLoop.eq_def] at heq
    simp only [dif_pos h, hdeps] at heq
    split at heq
    · rename_i st'' e' h2
      obtain ⟨rfl, -⟩ := Prod.mk.inj heq
      exact rrpt_uniq st _ _ _ h2 hu
    · rename_i st'' h2
      rw [herr] at h2
      exact absurd (Prod.mk.inj h2).2 (by simp)
  | case4 st i again h t hdeps st' hok ih =>
    intro st2 r heq hu
    rw [registerLoop.eq_def] at heq
    simp only [dif_pos h, hdeps] at heq
    split at heq
    · rename_i st'' e' h2
      rw [hok] at h2
      exact absurd (Prod.mk.inj h2).2 (by simp)
    · rename_i st'' h2
      rw [hok] at h2
      obtain ⟨rfl, -⟩ := Prod.mk.inj h2
      exact ih st2 r heq (rrpt_uniq st t st' (.ok ()) hok hu)
  | case5 st i h ih =>
    intro st2 r heq hu
    rw [registerLoop.eq_def] at heq
    simp only [dif_neg h, if_pos rfl] at heq
    exact ih st2 r heq hu
  | case6 st i again h ha =>
    intro st2 r heq hu
    rw [registerLoop.eq_def] at heq
    simp only [dif_neg h, if_neg ha] at heq
    obtain ⟨rfl, -⟩ := Prod.mk.inj heq
    exact hu

theorem registerLoop_complete (pm : PatternOps) (st : CacheState) (i : Nat) (again : Bool) :
    ∀ st2, registerLoop pm st i again = (st2, .ok ()) →
      ∀ p ∈ st.pendingList, p ∈ st2.pendingList ∨ containsKey st2.nedTypes p.qname = true := by
  induction st, i, again using registerLoop.induct pm with
  | case1 st i again h t hdeps =>
    intro st2 heq
    rw [registerLoop.eq_def] at heq
    simp only [dif_pos h, hdeps] at heq
    exact absurd (Prod.mk.inj heq).2 (by simp)
  | case2 st i again h t hdeps ih =>
    intro st2 heq
    rw [registerLoop.eq_def] at heq
    simp only [dif_pos h, hdeps] at heq
    exact ih st2 heq
  | case3 st i again h t hdeps st' e herr =>
    intro st2 heq
    rw [registerLoop.eq_def] at heq
    simp only [dif_pos h, hdeps] at heq
    split at heq
    · exact absurd (Prod.mk.inj heq).2 (by simp)
    · rename_i st'' h2
      rw [herr] at h2
      exact absurd (Prod.mk.inj h2).2 (by simp)
  | case4 st i again h t hdeps st' hok ih =>
    intro st2 heq
    rw [registerLoop.eq_def] at heq
    simp only [dif_pos h, hdeps] at heq
    split at heq
    · rename_i st'' e' h2
      rw [hok] at h2
      exact absurd (Prod.mk.inj h2).2 (by simp)
    · rename_i st'' h2
      rw [hok] at h2
      obtain ⟨rfl, -⟩ := Prod.mk.inj h2
      intro p hp
      have hpend := rrpt_pendingList st _ _ _ hok
      rcases mem_eraseIdx_or st.pendingList i h p hp with hin | hgot
      · have hin' : p ∈ st'.pendingList.eraseIdx i := by rw [hpend]; exact hin
        exact ih st2 heq p hin'
      · subst hgot
        have hreg := rrpt_ok_registered st _ _ hok
        exact Or.inr (registerLoop_types_mono pm _ i true st2 (.ok ()) heq _ hreg)
  | case5 st i h ih =>
    intro st2 heq
    rw [registerLoop.eq_def] at heq
    simp only [dif_neg h, if_pos rfl] at heq
    exact ih st2 heq
  | case6 st i again h ha =>
    intro st2 heq
    rw [registerLoop.eq_def] at heq
    simp only [dif_neg h, if_neg ha] at heq
    obtain ⟨rfl, -⟩ := Prod.mk.inj heq
    exact fun p hp => Or.inl hp

theorem registerLoop_fixpoint (pm : PatternOps) (st : CacheState) (i : Nat) (again : Bool) :
    ∀ st2, registerLoop pm st i again = (st2, .ok ()) →
      (again = false → ∀ j (hj : j < st.pendingList.length), j < i →
        areDependenciesResolved pm (typeNamesOf st) (st.pendingList.get ⟨j, hj⟩).qname
          (st.pendingList.get ⟨j, hj⟩).node = some false) →
      ∀ j (hj : j < st2.pendingList.length),
        areDependenciesResolved pm (typeNamesOf st2) (st2.pendingList.get ⟨j, hj⟩).qname
          (st2.pendingList.get ⟨j, hj⟩).node = some false := by
  induction st, i, again using registerLoop.induct pm with
  | case1 st i again h t hdeps =>
    intro st2 heq
    rw [registerLoop.eq_def] at heq
    simp only [dif_pos h, hdeps] at heq
    exact absurd (Prod.mk.inj heq).2 (by simp)
  | case2 st i again h t hdeps ih =>
    intro st2 heq hinv
    rw [registerLoop.eq_def] at heq
    simp only [dif_pos h, hdeps] at heq
    refine ih st2 heq ?_
    intro ha j hj hji
    rcases Nat.lt_succ_iff_lt_or_eq.mp hji with hlt | rfl
    · exact hinv ha j hj hlt
    · exact hdeps
  | case3 st i again h t hdeps st' e herr =>
    intro st2 heq
    rw [registerLoop.eq_def] at heq
    simp only [dif_pos h, hdeps] at heq
    split at heq
    · exact absurd (Prod.mk.inj heq).2 (by simp)
    · rename_i st'' h2
      rw [herr] at h2
      exact absurd (Prod.mk.inj h2).2 (by simp)
  | case4 st i again h t hdeps st' hok ih =>
    intro st2 heq hinv
    rw [registerLoop.eq_def] at heq
    simp only [dif_pos h, hdeps] at heq
    split at heq
    · rename_i st'' e' h2
      rw [hok] at h2
      exact absurd (Prod.mk.inj h2).2 (by simp)
    · rename_i st'' h2
      rw [hok] at h2
      obtain ⟨rfl, -⟩ := Prod.mk.inj h2
      exact ih st2 heq (by simp)
  | case5 st i h ih =>
    intro st2 heq hinv
    rw [registerLoop.eq_def] at heq
    simp only [dif_neg h, if_pos rfl] at heq
    exact ih st2 heq (by omega)
  | case6 st i again h ha =>
    intro st2 heq hinv
    rw [registerLoop.eq_def] at heq
    simp only [dif_neg h, if_neg ha] at heq
    obtain ⟨rfl, -⟩ := Prod.mk.inj heq
    intro j hj
    exact hinv (by simpa using ha) j hj (by omega)

theorem registerLoop_error_shape (pm : PatternOps) (st : CacheState) (i : Nat) (again : Bool) :
    ∀ st2 e, registerLoop pm st i again = (st2, .error e) →
      e = .ub ∨ ∃ tg q, e = .redeclaration tg q := by
  induction st, i, again using registerLoop.induct pm with
  | case1 st i again h t hdeps =>
    intro st2 e heq
    rw [registerLoop.eq_def] at heq
    simp only [dif_pos h, hdeps] at heq
    exact Or.inl ((Except.error.inj (Prod.mk.inj heq).2)).symm
  | case2 st i again h t hdeps ih =>
    intro st2 e heq
    rw [registerLoop.eq_def] at heq
    simp only [dif_pos h, hdeps] at heq
    exact ih st2 e heq
  | case3 st i again h t hdeps st' e herr =>
    intro st2 e' heq
    rw [registerLoop.eq_def] at heq
    simp only [dif_pos h, hdeps] at heq
    split at heq
    · rename_i st'' e'' h2
      obtain ⟨-, h3⟩ := Prod.mk.inj heq
      obtain rfl := Except.error.inj h3
      exact Or.inr ⟨_, _, rrpt_error st _ _ _ h2⟩
    · rename_i st'' h2
      rw [herr] at h2
      exact absurd (Prod.mk.inj h2).2 (by simp)
  | case4 st i again h t hdeps st' hok ih =>
    intro st2 e heq
    rw [registerLoop.eq_def] at heq
    simp only [dif_pos h, hdeps] at heq
    split at heq
    · rename_i st'' e' h2
      rw [hok] at h2
      exact absurd (Prod.mk.inj h2).2 (by simp)
    · rename_i st'' h2
      rw [hok] at h2
      obtain ⟨rfl, -⟩ := Prod.mk.inj h2
      exact ih st2 e heq
  | case5 st i h ih =>
    intro st2 e heq
    rw [registerLoop.eq_def] at heq
    simp only [dif_neg h, if_pos rfl] at heq
    exact ih st2 e heq
  | case6 st i again h ha =>
    intro st2 e heq
    rw [registerLoop.eq_def] at heq
    simp only [dif_neg h, if_neg ha] at heq
    exact absurd (Prod.mk.inj heq).2 (by simp)

theorem registerLoop_frame (pm : PatternOps) (st : CacheState) (i : Nat) (again : Bool) :
    ∀ st2 r, registerLoop pm st i again = (st2, r) →
      st2.nedFiles = st.nedFiles ∧ st2.packageDotNedFiles = st.packageDotNedFiles ∧
      st2.folderPackages = st.folderPackages ∧
      st2.doneLoadingNedFilesCalled = st.doneLoadingNedFilesCalled := by
  induction st, i, again using registerLoop.induct pm with
  | case1 st i again h t hdeps =>
    intro st2 r heq
    rw [registerLoop.eq_def] at heq
    simp only [dif_pos h, hdeps] at heq
    obtain ⟨rfl, -⟩ := Prod.mk.inj heq
    exact ⟨rfl, rfl, rfl, rfl⟩
  | case2 st i again h t hdeps ih =>
    intro st2 r heq
    rw [registerLoop.eq_def] at heq
    simp only [dif_pos h, hdeps] at heq
    exact ih st2 r heq
  | case3 st i again h t hdeps st' e herr =>
    intro st2 r heq
    rw [registerLoop.eq_def] at heq
    simp only [dif_pos h, hdeps] at heq
    split at heq
    · rename_i st'' e' h2
      obtain ⟨rfl, -⟩ := Prod.mk.inj heq
      exact rrpt_frame st _ _ _ h2
    · rename_i st'' h2
      rw [herr] at h2
      exact absurd (Prod.mk.inj h2).2 (by simp)
  | case4 st i again h t hdeps st' hok ih =>
    intro st2 r heq
    rw [registerLoop.eq_def] at heq
    simp only [dif_pos h, hdeps] at heq
    split at heq
    · rename_i st'' e' h2
      rw [hok] at h2
      exact absurd (Prod.mk.inj h2).2 (by simp)
    · rename_i st'' h2
      rw [hok] at h2
      obtain ⟨rfl, -⟩ := Prod.mk.inj h2
      obtain ⟨f1, f2, f3, f4⟩ := ih st2 r heq
      obtain ⟨g1, g2, g3, g4⟩ := rrpt_frame st t st' (.ok ()) hok
      exact ⟨f1.trans g1, f2.trans g2, f3.trans g3, f4.trans g4⟩
  | case5 st i h ih =>
    intro st2 r heq
    rw [registerLoop.eq_def] at heq
    simp only [dif_neg h, if_pos rfl] at heq
    exact ih st2 r heq
  | case6 st i again h ha =>
    intro st2 r heq
    rw [registerLoop.eq_def] at heq
    simp only [dif_neg h, if_neg ha] at heq
    obtain ⟨rfl, -⟩ := Prod.mk.inj heq
    exact ⟨rfl, rfl, rfl, rfl⟩


/-- C1: `registerPendingNedTypes` repeatedly scans the pending list in
insertion order, promoting every entry whose dependencies resolve, until
a full pass promotes nothing.  If it returns normally, the pending list
is empty and every previously pending type is registered; if it reports
unresolved types, the error names exactly the remaining pending QNames
(at least one), each of which indeed fails `areDependenciesResolved`
against the final registered set. -/
theorem C1_registerPendingNedTypes_fixpoint (pm : PatternOps) (st st' : CacheState) :
    (registerPendingNedTypes pm st = (st', .ok ()) →
      st'.pendingList = [] ∧
      ∀ p ∈ st.pendingList, containsKey st'.nedTypes p.qname = true) ∧
    (∀ names, registerPendingNedTypes pm st = (st', .error (.unresolvedTypes names)) →
      names = st'.pendingList.map PendingNedType.qname ∧ names ≠ [] ∧
      ∀ j (hj : j < st'.pendingList.length),
        areDependenciesResolved pm (typeNamesOf st') (st'.pendingList.get ⟨j, hj⟩).qname
          (st'.pendingList.get ⟨j, hj⟩).node = some false) := by
  constructor
  · intro heq
    unfold registerPendingNedTypes at heq
    split at heq
    · exact absurd (Prod.mk.inj heq).2 (by simp)
    · rename_i stL hloop
      split at heq
      · rename_i hempty
        obtain ⟨h1, -⟩ := Prod.mk.inj heq
        subst h1
        refine ⟨List.isEmpty_iff.mp hempty, ?_⟩
        intro p hp
        rcases registerLoop_complete pm st 0 false stL hloop p hp with hin | hreg
        · rw [List.isEmpty_iff.mp hempty] at hin
          exact absurd hin (List.not_mem_nil p)
        · exact hreg
      · exact absurd (Prod.mk.inj heq).2 (by simp)
  · intro names heq
    unfold registerPendingNedTypes at heq
    split at heq
    · rename_i stL e hloop
      obtain ⟨-, h2⟩ := Prod.mk.inj heq
      obtain rfl := Except.error.inj h2
      rcases registerLoop_error_shape pm st 0 false stL _ hloop with h3 | ⟨tg, q, h3⟩ <;>
        simp at h3
    · rename_i stL hloop
      split at heq
      · exact absurd (Prod.mk.inj heq).2 (by simp)
      · rename_i hempty
        obtain ⟨h1, h2⟩ := Prod.mk.inj heq
        subst h1
        obtain rfl := Err.unresolvedTypes.inj (Except.error.inj h2)
        refine ⟨rfl, ?_, ?_⟩
        · intro hnil
          exact hempty (by simpa [List.isEmpty_iff] using List.map_eq_nil_iff.mp hnil)
        · exact registerLoop_fixpoint pm st 0 false stL hloop (by omega)

/-- C1 witness: a single pending dependency-free type is promoted; the
run returns normally with an empty pending list and the type
registered. -/
theorem C1_witness : stW1'.pendingList = [] ∧ containsKey stW1'.nedTypes "p.B" = true := by
  have s1 : registerLoop pmW stW1 0 false = registerLoop pmW stW1' 0 true := by
    rw [registerLoop.eq_def]
    norm_num [stW1, stW1', CacheState.initial]
    rfl
  have s2 : registerLoop pmW stW1' 0 true = registerLoop pmW stW1' 0 false := by
    rw [registerLoop.eq_def]
    norm_num [stW1', CacheState.initial]
  have s3 : registerLoop pmW stW1' 0 false = (stW1', .ok ()) := by
    rw [registerLoop.eq_def]
    norm_num [stW1', CacheState.initial]
  have hrun : registerPendingNedTypes pmW stW1 = (stW1', .ok ()) := by
    simp only [registerPendingNedTypes, s1, s2, s3]
    rfl
  have h := (C1_registerPendingNedTypes_fixpoint pmW stW1 stW1').1 hrun
  exact ⟨h.1, h.2 ⟨"p.B", false, ⟨wbFile, [2]⟩⟩ (by simp [stW1])⟩


/-- C2: when the canonical key of a file is already in the file index,
`doLoadNedFileOrText` (also reached through `loadNedFile` and
`loadNedText`) returns immediately with the cache state unchanged. -/
theorem C2_doLoadNedFileOrText_idempotent (env : Env) (pm : PatternOps) (cwd : String)
    (st : CacheState) (nedFilename : String) (nedText : Option String)
    (expectedPackage : Option String) (isXML : Bool)
    (h : containsKey st.nedFiles
      (if nedText.isSome then nedFilename else canonicalize cwd nedFilename) = true) :
    doLoadNedFileOrText env pm cwd st nedFilename nedText expectedPackage isXML
      = (st, .ok ()) ∧
    (nedText = none →
      loadNedFile env pm cwd st nedFilename expectedPackage isXML = (st, .ok ())) ∧
    (∀ txt, nedText = some txt →
      loadNedText env pm cwd st nedFilename txt expectedPackage isXML = (st, .ok ())) := by
  have hmain : doLoadNedFileOrText env pm cwd st nedFilename nedText expectedPackage isXML
      = (st, .ok ()) := by
    unfold doLoadNedFileOrText
    simp only [h, if_true]
  refine ⟨hmain, ?_, ?_⟩
  · intro hn
    subst hn
    simpa [loadNedFile] using hmain
  · intro txt hn
    subst hn
    simpa [loadNedText] using hmain

/-- C2 witness: reloading `/w/a.ned` (relative name `a.ned` under `/w`)
into a cache already holding it returns the state unchanged. -/
theorem C2_witness :
    doLoadNedFileOrText envW pmW "/w" stW2 "a.ned" none none false = (stW2, .ok ()) ∧
    loadNedFile envW pmW "/w" stW2 "a.ned" none false = (stW2, .ok ()) := by
  have h := C2_doLoadNedFileOrText_idempotent envW pmW "/w" stW2 "a.ned" none none false
    (by rfl)
  exact ⟨h.1, h.2.1 rfl⟩


/-- C3: promoting a pending type whose QName is already registered fails
with the redeclaration error (naming the node's tag and the QName);
otherwise a `NedTypeInfo` is appended to the type index and the cached
type-names listing is invalidated.  Consequently `registerPendingNedTypes`
preserves the distinctness of the QNames in the type index. -/
theorem C3_register_redeclaration_guard (pm : PatternOps) (st : CacheState)
    (t : PendingNedType) :
    ((lookup st t.qname).isSome = true →
      registerResolvedPendingType st t
        = (st, .error (.redeclaration t.node.tag? t.qname))) ∧
    (lookup st t.qname = none →
      registerResolvedPendingType st t
        = (⟨st.nedFiles, st.packageDotNedFiles, st.folderPackages, st.pendingList,
            st.nedTypes ++ [(t.qname, ⟨t.qname, t.isInnerType, t.node⟩)], [],
            st.doneLoadingNedFilesCalled⟩, .ok ())) ∧
    (uniqueKeys st.nedTypes →
      ∀ st2 r, registerPendingNedTypes pm st = (st2, r) → uniqueKeys st2.nedTypes) := by
  refine ⟨?_, ?_, ?_⟩
  · intro h
    unfold registerResolvedPendingType
    rw [if_pos h]
  · intro h
    have hck : containsKey st.nedTypes t.qname = false := by
      simp only [containsKey, lookup] at h ⊢
      rw [h]
      rfl
    unfold registerResolvedPendingType
    rw [if_neg (by simp [h])]
    unfold registerNedType
    rw [mapInsert_of_absent st.nedTypes t.qname _ hck]
  · intro hu st2 r heq
    unfold registerPendingNedTypes at heq
    split at heq
    · rename_i stL e hloop
      obtain ⟨h1, -⟩ := Prod.mk.inj heq
      subst h1
      exact registerLoop_uniq pm st 0 false stL _ hloop hu
    · rename_i stL hloop
      split at heq
      · obtain ⟨h1, -⟩ := Prod.mk.inj heq
        subst h1
        exact registerLoop_uniq pm st 0 false stL _ hloop hu
      · obtain ⟨h1, -⟩ := Prod.mk.inj heq
        subst h1
        exact registerLoop_uniq pm st 0 false stL _ hloop hu

/-- C3 witness: registering `p.B` into a cache that already holds it
raises the redeclaration error; into an empty cache it appends the entry
and clears the listing; and a run of the registrar preserves key
uniqueness. -/
theorem C3_witness :
    registerResolvedPendingType stW1' ⟨"p.B", false, ⟨wbFile, [2]⟩⟩
      = (stW1', .error (.redeclaration (Pos.mk wbFile [2]).tag? "p.B")) ∧
    registerResolvedPendingType CacheState.initial ⟨"p.B", false, ⟨wbFile, [2]⟩⟩
      = (⟨CacheState.initial.nedFiles, CacheState.initial.packageDotNedFiles,
          CacheState.initial.folderPackages, CacheState.initial.pendingList,
          CacheState.initial.nedTypes ++ [("p.B", ⟨"p.B", false, ⟨wbFile, [2]⟩⟩)], [],
          CacheState.initial.doneLoadingNedFilesCalled⟩, .ok ()) ∧
    uniqueKeys stW1'.nedTypes := by
  have s1 : registerLoop pmW stW1 0 false = registerLoop pmW stW1' 0 true := by
    rw [registerLoop.eq_def]
    norm_num [stW1, stW1', CacheState.initial]
    rfl
  have s2 : registerLoop pmW stW1' 0 true = registerLoop pmW stW1' 0 false := by
    rw [registerLoop.eq_def]
    norm_num [stW1', CacheState.initial]
  have s3 : registerLoop pmW stW1' 0 false = (stW1', .ok ()) := by
    rw [registerLoop.eq_def]
    norm_num [stW1', CacheState.initial]
  have hrun : registerPendingNedTypes pmW stW1 = (stW1', .ok ()) := by
    simp only [registerPendingNedTypes, s1, s2, s3]
    rfl
  exact ⟨(C3_register_redeclaration_guard pmW stW1' ⟨"p.B", false, ⟨wbFile, [2]⟩⟩).1 (by rfl),
         (C3_register_redeclaration_guard pmW CacheState.initial
            ⟨"p.B", false, ⟨wbFile, [2]⟩⟩).2.1 (by rfl),
         (C3_register_redeclaration_guard pmW stW1 ⟨"p.B", false, ⟨wbFile, [2]⟩⟩).2.2
            (by simp [CacheState.initial, uniqueKeys, stW1]) stW1' (.ok ()) hrun⟩


theorem find?_first {α : Type} (p : α → Bool) (l : List α) (b : α)
    (h : l.find? p = some b) :
    p b = true ∧ ∃ pre post, l = pre ++ b :: post ∧ ∀ x ∈ pre, p x = false := by
  induction l with
  | nil => simp at h
  | cons x rest ih =>
    by_cases hx : p x = true
    · rw [List.find?_cons_of_pos _ hx] at h
      obtain rfl := Option.some.inj h
      exact ⟨hx, [], rest, rfl, by simp⟩
    · rw [List.find?_cons_of_neg _ (by simpa using hx)] at h
      obtain ⟨hb, pre, post, hsplit, hpre⟩ := ih h
      refine ⟨hb, x :: pre, post, by rw [hsplit, List.cons_append], ?_⟩
      intro y hy
      rcases List.mem_cons.mp hy with rfl | hmem
      · exact Bool.not_eq_true _ ▸ (by simpa using hx)
      · exact hpre y hmem

/-- C4 counterexample: the claim says the exact-import step considers
only wildcard-free imports, but the source applies no wildcard filter
there.  With the single import `x.*` (a wildcard pattern), an oracle that
contains the literal QName `x.*`, and the dot-free reference `*`, the
source resolver returns `x.*` from the exact-import step, whereas a
resolver whose step (b) skips wildcard-containing imports (as the claim
prescribes) resolves nothing. -/
theorem C4_counterexample :
    pmW.containsWildcards "x.*" = true ∧
    resolveNedType pmW ⟨⟨wiFile, []⟩, ""⟩ "*" ["x.*"] = some "x.*" ∧
    exactImportLookup ["x.*"] ["x.*"] "*" = some "x.*" ∧
    exactImportLookupSpec pmW ["x.*"] ["x.*"] "*" = none ∧
    resolveNedTypeSpecB pmW ⟨⟨wiFile, []⟩, ""⟩ "*" ["x.*"] = some "" :=
  ⟨rfl, rfl, rfl, rfl, rfl⟩

/-- C4 amended: for every simple (dot-free) reference that is not resolved
as an inner type of the enclosing compound module — the context element is
not a compound module, or it is one and the inner-type probe falls through
(the parent exists, the enclosing-base computation succeeds, and the
candidate inner QName is not in the oracle) — the exact-import step scans
**every** import of the enclosing file, wildcard-containing ones included,
and the resolver returns the first import in file order that the oracle
contains and that equals `r` or ends with `"." + r`. -/
theorem C4_exact_import_first (pm : PatternOps) (ctx : NedLookupContext) (r : String)
    (qnames : List String) (fp : Pos) (fileNode : Ast) (imp : String)
    (hr : strContainsChar r '.' = false)
    (hA : ctx.element.tag? ≠ some Tag.compoundModule ∨
      ∃ par base, ctx.element.parent = some par ∧
        (if (par.parentWithTag Tag.compoundModule).isSome = true
          then beforeLastDot? ctx.qname else some ctx.qname) = some base ∧
        qnames.contains (base ++ "." ++ r) = false)
    (hfp : ctx.element.parentWithTag Tag.file = some fp)
    (hcur : fp.cur = some fileNode)
    (hfind : exactImportLookup qnames fileNode.importSpecs r = some imp) :
    resolveNedType pm ctx r qnames = some imp ∧
    (qnames.contains imp && (strEndsWith imp ("." ++ r) || imp == r)) = true ∧
    ∃ pre post, fileNode.importSpecs = pre ++ imp :: post ∧
      ∀ x ∈ pre, (qnames.contains x && (strEndsWith x ("." ++ r) || x == r)) = false := by
  obtain ⟨hP, pre, post, hsplit, hpre⟩ :=
    find?_first (fun i => qnames.contains i && (strEndsWith i ("." ++ r) || i == r))
      fileNode.importSpecs imp hfind
  refine ⟨?_, hP, pre, post, hsplit, hpre⟩
  unfold resolveNedType
  rw [if_pos (by simp [hr])]
  by_cases hc : ctx.element.tag? = some Tag.compoundModule
  · rcases hA with h1 | ⟨par, base, hpar, hbase, hcont⟩
    · exact absurd hc h1
    · rw [if_pos hc, hpar]
      dsimp only []
      rw [hbase]
      dsimp only []
      rw [if_neg (by rw [hcont]; simp)]
      dsimp only []
      rw [hfp]
      simp only [hcur, hfind]
  · rw [if_neg hc]
    rw [hfp]
    simp only [hcur, hfind]


/-- C4 witness: the amended exact-import behaviour at the counterexample
input (a file-level context returning the wildcard import `x.*` for the
reference `*`), and at a compound-module context (`p.M` in `c4File`) whose
inner-type probe misses, so the reference `Base` reaches the exact-import
step and resolves to the import `a.Base`. -/
theorem C4_witness :
    resolveNedType pmW ⟨⟨wiFile, []⟩, ""⟩ "*" ["x.*"] = some "x.*" ∧
    (List.contains ["x.*"] "x.*" && (strEndsWith "x.*" ("." ++ "*") || "x.*" == "*")) = true ∧
    resolveNedType pmW ⟨⟨c4File, [1]⟩, "p.M"⟩ "Base" ["a.Base"] = some "a.Base" := by
  have h := C4_exact_import_first pmW ⟨⟨wiFile, []⟩, ""⟩ "*" ["x.*"] ⟨wiFile, []⟩ wiFile "x.*"
    rfl (Or.inl (by decide)) rfl rfl rfl
  have h2 := C4_exact_import_first pmW ⟨⟨c4File, [1]⟩, "p.M"⟩ "Base" ["a.Base"]
    ⟨c4File, []⟩ c4File "a.Base" rfl
    (Or.inr ⟨⟨c4File, []⟩, "p.M", rfl, rfl, rfl⟩) rfl rfl rfl
  exact ⟨h.1, h.2.1, h2.1⟩

/-- C5: the type-name listing is (re)built by iterating the type index,
whose iteration order the model fixes to insertion order, so a freshly
invalidated listing equals the insertion-ordered key list; and the
wildcard-import step returns, for the first wildcard import that matches
anything, the first matching QName in oracle order. -/
theorem C5_oracle_insertion_order (pm : PatternOps) (st : CacheState)
    (imports : List String) (r : String) (qnames : List String) (imp q0 : String) :
    (st.nedTypeNames = [] → (getTypeNames st).2 = st.nedTypes.map Prod.fst) ∧
    (imports.find? (fun i => pm.containsWildcards i &&
        qnames.any (fun q => (strEndsWith q ("." ++ r) || q == r) && pm.patMatches i q))
        = some imp →
      qnames.find? (fun q => (strEndsWith q ("." ++ r) || q == r) && pm.patMatches imp q)
        = some q0 →
      wildcardImportLookup pm imports r qnames = q0) := by
  constructor
  · intro hN
    unfold getTypeNames
    split
    · rfl
    · rename_i hc
      rw [hN] at hc
      simp only [List.isEmpty_nil, true_and, Decidable.not_not] at hc
      rw [hN, List.isEmpty_iff.mp hc]
      rfl
  · intro hfind hq
    induction imports with
    | nil => simp at hfind
    | cons i rest ih =>
      by_cases hw : pm.containsWildcards i = true
      · by_cases hany : qnames.any
            (fun q => (strEndsWith q ("." ++ r) || q == r) && pm.patMatches i q) = true
        · rw [List.find?_cons_of_pos _ (by simp [hw, hany])] at hfind
          obtain rfl := Option.some.inj hfind
          simp only [wildcardImportLookup]
          rw [if_pos hw, hq]
        · rw [List.find?_cons_of_neg _ (by simp [hw, hany])] at hfind
          simp only [wildcardImportLookup]
          rw [if_pos hw]
          have hnone : qnames.find?
              (fun q => (strEndsWith q ("." ++ r) || q == r) && pm.patMatches i q) = none := by
            rw [List.find?_eq_none]
            intro x hx hpx
            exact hany (List.any_eq_true.mpr ⟨x, hx, hpx⟩)
          rw [hnone]
          exact ih hfind
      · rw [List.find?_cons_of_neg _ (by simp [hw])] at hfind
        simp only [wildcardImportLookup]
        rw [if_neg hw]
        exact ih hfind

/-- C5 witness: the rebuilt listing for a one-type cache, and the spec's
wildcard scenario (`import x.*`, reference `Foo`, oracle `[y.Foo, x.Foo]`)
returning the first pattern-matching QName in oracle order. -/
theorem C5_witness :
    (getTypeNames stW1').2 = ["p.B"] ∧
    wildcardImportLookup pmW5 ["x.*"] "Foo" ["y.Foo", "x.Foo"] = "x.Foo" := by
  have h := C5_oracle_insertion_order pmW5 stW1' ["x.*"] "Foo" ["y.Foo", "x.Foo"] "x.*" "x.Foo"
  refine ⟨by rw [h.1 rfl]; rfl, h.2 rfl rfl⟩

theorem isPathPrefixOf_self (f : String) : isPathPrefixOf f f = true := by
  simp [isPathPrefixOf]

theorem find?_prefix_of_mapGet (m : List (String × String)) (f pkg : String)
    (hlk : mapGet m f = some pkg)
    (hnn : ∀ p ∈ m, p.1 ≠ f → isPathPrefixOf p.1 f = false) :
    m.find? (fun fp => isPathPrefixOf fp.1 f) = some (f, pkg) := by
  induction m with
  | nil => simp [mapGet] at hlk
  | cons p rest ih =>
    obtain ⟨k, v⟩ := p
    by_cases hk : k = f
    · subst hk
      rw [List.find?_cons_of_pos _ (by simpa using isPathPrefixOf_self k)]
      simp only [mapGet] at hlk
      rw [List.find?_cons_of_pos _ (by simp)] at hlk
      simp at hlk
      rw [hlk]
    · rw [List.find?_cons_of_neg _ (by simpa using hnn (k, v) (by simp) hk)]
      simp only [mapGet] at hlk ih
      rw [List.find?_cons_of_neg _ (by simp [hk])] at hlk
      exact ih hlk (fun q hq hne2 => hnn q (by simp [hq]) hne2)

theorem registeredFolderGetters (cwd : String) (st : CacheState) (q c pkg : String)
    (hcanon : canonicalize cwd q = c)
    (hlk : mapGet st.folderPackages c = some pkg)
    (hne : c ≠ "")
    (hnn : ∀ p ∈ st.folderPackages, p.1 ≠ c → isPathPrefixOf p.1 c = false) :
    getNedSourceFolderForFolder cwd st q = c ∧ getNedPackageForFolder cwd st q = pkg := by
  have h1 : getNedSourceFolderForFolder cwd st q = c := by
    simp only [getNedSourceFolderForFolder, hcanon,
      find?_prefix_of_mapGet st.folderPackages c pkg hlk hnn]
  refine ⟨h1, ?_⟩
  have hdrop : c.toList.drop c.length = [] := List.drop_length c.toList
  simp only [getNedPackageForFolder, h1, if_neg hne, hcanon, hdrop, hlk, Option.getD_some]
  norm_num
  unfold oppJoin
  split
  · rename_i hpkg
    exact hpkg.symm
  · rfl

/-- C6: a folder that is exactly a registered source folder (its key in the
folder → root-package map, canonical, with no other registered folder a
path prefix of it) is returned unchanged by `getNedSourceFolderForFolder`,
and `getNedPackageForFolder` returns its recorded root package. -/
theorem C6_registered_folder_roundtrip (cwd : String) (st : CacheState) (f pkg : String)
    (hlk : mapGet st.folderPackages f = some pkg)
    (hcanon : canonicalize cwd f = f)
    (hne : f ≠ "")
    (hnn : ∀ p ∈ st.folderPackages, p.1 ≠ f → isPathPrefixOf p.1 f = false) :
    getNedSourceFolderForFolder cwd st f = f ∧ getNedPackageForFolder cwd st f = pkg :=
  registeredFolderGetters cwd st f f pkg hcanon hlk hne hnn

/-- C6 witness: the registered source folder `/w/root` with root package
`p` is returned as its own source folder, with package `p`. -/
theorem C6_witness :
    getNedSourceFolderForFolder "/w" stW6 "/w/root" = "/w/root" ∧
    getNedPackageForFolder "/w" stW6 "/w/root" = "p" := by
  refine C6_registered_folder_roundtrip "/w" stW6 "/w/root" "p" rfl rfl (by decide) ?_
  intro q hq hneq
  simp only [stW6, CacheState.initial] at hq
  simp only [List.mem_singleton] at hq
  subst hq
  simp at hneq


/-- C9: when no registered source folder is a path prefix of the
canonicalized query, both folder queries return the empty string instead
of failing (both are read-only functions of the cache state by
construction). -/
theorem C9_unregistered_folder_queries (cwd : String) (st : CacheState) (p : String)
    (h : ∀ q ∈ st.folderPackages, isPathPrefixOf q.1 (canonicalize cwd p) = false) :
    getNedSourceFolderForFolder cwd st p = "" ∧ getNedPackageForFolder cwd st p = "" := by
  have hnone : List.find? (fun fp => isPathPrefixOf fp.1 (canonicalize cwd p))
      st.folderPackages = none := by
    rw [List.find?_eq_none]
    intro x hx
    simp [h x hx]
  have h1 : getNedSourceFolderForFolder cwd st p = "" := by
    simp only [getNedSourceFolderForFolder, hnone]
  refine ⟨h1, ?_⟩
  simp [getNedPackageForFolder, h1]

/-- C9 witness: a path outside the single registered source folder
resolves to the empty source folder and the empty package. -/
theorem C9_witness :
    getNedSourceFolderForFolder "/w" stW6 "/elsewhere" = "" ∧
    getNedPackageForFolder "/w" stW6 "/elsewhere" = "" := by
  refine C9_unregistered_folder_queries "/w" stW6 "/elsewhere" ?_
  intro q hq
  simp only [stW6, CacheState.initial, List.mem_singleton] at hq
  subst hq
  decide

/-- C10: `registerBuiltinDeclarations` unconditionally `addFile`s its
parse result under the fixed key `/[built-in-declarations]/package.ned`;
`addFile` requires the key to be absent, so a first call on a fresh cache
succeeds and inserts the key, while any call on a cache already holding
the key trips the no-duplicate-file-key assertion rather than being a
no-op. -/
theorem C10_registerBuiltins_not_idempotent (env : Env) (st : CacheState) (tree : Ast)
    (hparse : env.parseNedText env.builtinDeclsText "built-in-declarations" = .ok tree)
    (htag : tree.tag? = some Tag.file) :
    (containsKey st.nedFiles "/[built-in-declarations]/package.ned" = true →
      registerBuiltinDeclarations env st = (st, .error .assertFailed)) ∧
    (containsKey st.nedFiles "/[built-in-declarations]/package.ned" = false →
      registerBuiltinDeclarations env st
        = (⟨mapInsert st.nedFiles "/[built-in-declarations]/package.ned" tree,
            st.packageDotNedFiles, st.folderPackages, st.pendingList, st.nedTypes,
            st.nedTypeNames, st.doneLoadingNedFilesCalled⟩, .ok ())) ∧
    (∀ st1, registerBuiltinDeclarations env st = (st1, .ok ()) →
      registerBuiltinDeclarations env st1 = (st1, .error .assertFailed)) := by
  have hbase : ∀ s2 : CacheState, registerBuiltinDeclarations env s2
      = addFile s2 "/[built-in-declarations]/package.ned" tree := by
    intro s2
    simp only [registerBuiltinDeclarations, hparse]
    rw [if_pos htag]
  refine ⟨?_, ?_, ?_⟩
  · intro hk
    rw [hbase st]
    unfold addFile
    rw [if_pos hk]
  · intro hk
    rw [hbase st]
    unfold addFile
    rw [if_neg (by simp [hk])]
  · intro st1 hrun
    rw [hbase st] at hrun
    unfold addFile at hrun
    split at hrun
    · exact absurd (Prod.mk.inj hrun).2 (by simp)
    · obtain ⟨h1, -⟩ := Prod.mk.inj hrun
      rw [hbase st1]
      unfold addFile
      rw [if_pos (by rw [← h1]; exact containsKey_mapInsert_self _ _ _)]

/-- C10 witness: on a fresh cache the first `registerBuiltinDeclarations`
succeeds and stores the synthetic file; the second call on the resulting
cache fails the duplicate-key assertion. -/
theorem C10_witness :
    registerBuiltinDeclarations envW CacheState.initial = (stW10, .ok ()) ∧
    registerBuiltinDeclarations envW stW10 = (stW10, .error .assertFailed) := by
  have h := C10_registerBuiltins_not_idempotent envW CacheState.initial wbFile rfl rfl
  have h1 : registerBuiltinDeclarations envW CacheState.initial = (stW10, .ok ()) := by
    rw [h.2.1 rfl]
    rfl
  exact ⟨h1, h.2.2 stW10 h1⟩


theorem walkFolderEntries_count (env : Env) (pm : PatternOps) (excl : List String) :
    ∀ (entries : Fs) (cwd : String) (st st' : CacheState) (n : Nat) (p : Option String),
      walkFolderEntries env pm cwd st entries p excl = (st', .ok n) →
      n = specNedFileCount entries p excl := by
  intro entries
  induction entries with
  | nilE =>
    intro cwd st st' n p heq
    simp only [walkFolderEntries] at heq
    obtain ⟨-, h2⟩ := Prod.mk.inj heq
    simp [specNedFileCount, ← Except.ok.inj h2]
  | dirE name sub next ihsub ihnext =>
    intro cwd st st' n p heq
    simp only [walkFolderEntries] at heq
    by_cases hdot : strStartsWith name "." = true
    · rw [if_pos hdot] at heq
      have hn := ihnext cwd st st' n p heq
      simp [specNedFileCount, hdot, hn]
    · rw [if_neg hdot] at heq
      split at heq
      · exact absurd (Prod.mk.inj heq).2 (by simp)
      · rename_i st1 n1 hsub
        split at heq
        · exact absurd (Prod.mk.inj heq).2 (by simp)
        · rename_i st2 n2 hnext
          obtain ⟨-, h2⟩ := Prod.mk.inj heq
          obtain rfl := Except.ok.inj h2
          have hn2 := ihnext cwd st1 st2 n2 p hnext
          by_cases hex : packageExcluded (p.map (fun q => oppJoin "." q name)) excl = true
          · rw [if_pos hex] at hsub
            obtain ⟨-, h3⟩ := Prod.mk.inj hsub
            obtain rfl := Except.ok.inj h3
            simp [specNedFileCount, hdot, hex, hn2]
          · rw [if_neg hex] at hsub
            have hn1 := ihsub (canonicalize cwd name) st st1 n1
              (p.map (fun q => oppJoin "." q name)) hsub
            simp [specNedFileCount, hdot, hex, hn1, hn2]
  | fileE name next ihnext =>
    intro cwd st st' n p heq
    simp only [walkFolderEntries] at heq
    by_cases hdot : strStartsWith name "." = true
    · rw [if_pos hdot] at heq
      have hn := ihnext cwd st st' n p heq
      simp [specNedFileCount, hdot, hn]
    · rw [if_neg hdot] at heq
      by_cases hned : strEndsWith name ".ned" = true
      · rw [if_pos hned] at heq
        split at heq
        · exact absurd (Prod.mk.inj heq).2 (by simp)
        · rename_i st1 hload
          split at heq
          · exact absurd (Prod.mk.inj heq).2 (by simp)
          · rename_i st2 n2 hnext
            obtain ⟨-, h2⟩ := Prod.mk.inj heq
            obtain rfl := Except.ok.inj h2
            have hn2 := ihnext cwd st1 st2 n2 p hnext
            simp [specNedFileCount, hdot, hned, hn2]
            omega
      · rw [if_neg hned] at heq
        have hn := ihnext cwd st st' n p heq
        simp [specNedFileCount, hdot, hned, hn]

/-- C7: on a successful run, `doLoadNedSourceFolder` returns exactly the
number of (non-dot) `.ned` files that the walk encounters, with every
directory subtree whose inferred expected package is non-empty and
excluded contributing zero; `loadNedSourceFolder` returns the same count
computed with the folder's root package and the parsed excluded-package
list. -/
theorem C7_folder_walk_count (env : Env) (pm : PatternOps) (cwd : String) (st : CacheState)
    (folderName : String) (contents : Fs) (expectedPackage : Option String)
    (excl : List String) (excludedPackagesStr : String) :
    (∀ st' n, doLoadNedSourceFolder env pm cwd st folderName contents expectedPackage excl
        = (st', .ok n) → n = specNedFileCountDir contents expectedPackage excl) ∧
    (∀ st' n pkg, determineRootPackageName env cwd folderName = .ok pkg →
      loadNedSourceFolder env pm cwd st folderName contents excludedPackagesStr
        = (st', .ok n) →
      n = specNedFileCountDir contents (some pkg)
        ((splitAndTrim excludedPackagesStr ';').filter (fun q => q ≠ ""))) := by
  constructor
  · intro st' n heq
    unfold doLoadNedSourceFolder at heq
    unfold specNedFileCountDir
    by_cases hex : packageExcluded expectedPackage excl = true
    · rw [if_pos hex] at heq
      rw [if_pos hex]
      obtain ⟨-, h2⟩ := Prod.mk.inj heq
      exact (Except.ok.inj h2).symm
    · rw [if_neg hex] at heq
      rw [if_neg hex]
      exact walkFolderEntries_count env pm excl contents (canonicalize cwd folderName)
        st st' n expectedPackage heq
  · intro st' n pkg hroot heq
    unfold loadNedSourceFolder at heq
    rw [hroot] at heq
    split at heq
    · rename_i e hcontra
      exact absurd hcontra (by simp)
    · rename_i m hm
      obtain rfl := Except.ok.inj hm
      dsimp only [] at heq
      split at heq
      · exact absurd (Prod.mk.inj heq).2 (by simp)
      · rename_i st2 m2 hload
        obtain ⟨-, h2⟩ := Prod.mk.inj heq
        obtain rfl := Except.ok.inj h2
        unfold doLoadNedSourceFolder at hload
        unfold specNedFileCountDir
        by_cases hex : packageExcluded (some pkg)
            ((splitAndTrim excludedPackagesStr ';').filter (fun q => q ≠ "")) = true
        · rw [if_pos hex] at hload
          rw [if_pos hex]
          obtain ⟨-, h3⟩ := Prod.mk.inj hload
          exact (Except.ok.inj h3).symm
        · rw [if_neg hex] at hload
          rw [if_neg hex]
          exact walkFolderEntries_count env pm _ contents (canonicalize cwd folderName)
            _ st2 m2 (some pkg) hload

/-- C7 witness: a walk over `sub/M.ned`, `sub/.hidden.ned`, `Top.ned`
loads two `.ned` files (the dotfile is skipped), matching the spec-side
count. -/
theorem C7_witness :
    (2 : Nat) = specNedFileCountDir fsW none [] := by
  exact (C7_folder_walk_count envW pmW "/w" CacheState.initial "root" fsW none [] "").1
    (doLoadNedSourceFolder envW pmW "/w" CacheState.initial "root" fsW none []).1 2 rfl


theorem addFile_folderPackages (st : CacheState) (f : String) (t : Ast)
    (st2 : CacheState) (r : Except Err Unit) (h : addFile st f t = (st2, r)) :
    st2.folderPackages = st.folderPackages := by
  unfold addFile at h
  split at h <;> obtain ⟨h1, -⟩ := Prod.mk.inj h <;> rw [← h1]

theorem registerPendingNedTypes_folderPackages (pm : PatternOps) (st st2 : CacheState)
    (r : Except Err Unit) (h : registerPendingNedTypes pm st = (st2, r)) :
    st2.folderPackages = st.folderPackages := by
  unfold registerPendingNedTypes at h
  split at h
  · rename_i stL e hloop
    obtain ⟨h1, -⟩ := Prod.mk.inj h
    rw [← h1]
    exact (registerLoop_frame pm st 0 false stL _ hloop).2.2.1
  · rename_i stL hloop
    split at h
    · obtain ⟨h1, -⟩ := Prod.mk.inj h
      rw [← h1]
      exact (registerLoop_frame pm st 0 false stL _ hloop).2.2.1
    · obtain ⟨h1, -⟩ := Prod.mk.inj h
      rw [← h1]
      exact (registerLoop_frame pm st 0 false stL _ hloop).2.2.1

theorem doLoadNedFileOrText_folderPackages (env : Env) (pm : PatternOps) (cwd : String)
    (st : CacheState) (f : String) (t ep : Option String) (x : Bool)
    (st2 : CacheState) (r : Except Err Unit)
    (h : doLoadNedFileOrText env pm cwd st f t ep x = (st2, r)) :
    st2.folderPackages = st.folderPackages := by
  unfold doLoadNedFileOrText at h
  dsimp only [] at h
  generalize (if t.isSome = true then f else canonicalize cwd f) = cf at h
  split at h
  · rw [← (Prod.mk.inj h).1]
  · split at h
    · rw [← (Prod.mk.inj h).1]
    · split at h
      · rw [← (Prod.mk.inj h).1]
      · rename_i tree hparse
        split at h
        · rename_i epv
          split at h
          · rw [← (Prod.mk.inj h).1]
          · split at h
            · rename_i st1 e hadd
              rw [← (Prod.mk.inj h).1]
              exact addFile_folderPackages st _ tree st1 _ hadd
            · rename_i st1 hadd
              have hf1 := addFile_folderPackages st _ tree st1 _ hadd
              split at h
              · rw [registerPendingNedTypes_folderPackages pm _ st2 r h]
                exact hf1
              · rw [← (Prod.mk.inj h).1]
                exact hf1
        · split at h
          · rename_i st1 e hadd
            rw [← (Prod.mk.inj h).1]
            exact addFile_folderPackages st _ tree st1 _ hadd
          · rename_i st1 hadd
            have hf1 := addFile_folderPackages st _ tree st1 _ hadd
            split at h
            · rw [registerPendingNedTypes_folderPackages pm _ st2 r h]
              exact hf1
            · rw [← (Prod.mk.inj h).1]
              exact hf1

theorem walkFolderEntries_folderPackages (env : Env) (pm : PatternOps) (excl : List String) :
    ∀ (entries : Fs) (cwd : String) (st st2 : CacheState) (r : Except Err Nat)
      (p : Option String), walkFolderEntries env pm cwd st entries p excl = (st2, r) →
      st2.folderPackages = st.folderPackages := by
  intro entries
  induction entries with
  | nilE =>
    intro cwd st st2 r p heq
    simp only [walkFolderEntries] at heq
    obtain ⟨h1, -⟩ := Prod.mk.inj heq
    rw [← h1]
  | dirE name sub next ihsub ihnext =>
    intro cwd st st2 r p heq
    simp only [walkFolderEntries] at heq
    by_cases hdot : strStartsWith name "." = true
    · rw [if_pos hdot] at heq
      exact ihnext cwd st st2 r p heq
    · rw [if_neg hdot] at heq
      split at heq
      · rename_i st1 e hsub
        obtain ⟨h1, -⟩ := Prod.mk.inj heq
        rw [← h1]
        by_cases hex : packageExcluded (p.map (fun q => oppJoin "." q name)) excl = true
        · rw [if_pos hex] at hsub
          obtain ⟨h3, -⟩ := Prod.mk.inj hsub
          rw [← h3]
        · rw [if_neg hex] at hsub
          exact ihsub (canonicalize cwd name) st st1 _ _ hsub
      · rename_i st1 n1 hsub
        have hfs : st1.folderPackages = st.folderPackages := by
          by_cases hex : packageExcluded (p.map (fun q => oppJoin "." q name)) excl = true
          · rw [if_pos hex] at hsub
            obtain ⟨h3, -⟩ := Prod.mk.inj hsub
            rw [← h3]
          · rw [if_neg hex] at hsub
            exact ihsub (canonicalize cwd name) st st1 _ _ hsub
        split at heq <;> (obtain ⟨h1, -⟩ := Prod.mk.inj heq; rw [← h1])
        · rename_i st3 e hnext
          rw [ihnext cwd st1 st3 _ p hnext]
          exact hfs
        · rename_i st3 n3 hnext
          rw [ihnext cwd st1 st3 _ p hnext]
          exact hfs
  | fileE name next ihnext =>
    intro cwd st st2 r p heq
    simp only [walkFolderEntries] at heq
    by_cases hdot : strStartsWith name "." = true
    · rw [if_pos hdot] at heq
      exact ihnext cwd st st2 r p heq
    · rw [if_neg hdot] at heq
      by_cases hned : strEndsWith name ".ned" = true
      · rw [if_pos hned] at heq
        split at heq
        · rename_i st1 e hload
          obtain ⟨h1, -⟩ := Prod.mk.inj heq
          rw [← h1]
          exact doLoadNedFileOrText_folderPackages env pm cwd st name none p false st1 _ hload
        · rename_i st1 hload
          have hf1 := doLoadNedFileOrText_folderPackages env pm cwd st name none p false
            st1 _ hload
          split at heq <;> (obtain ⟨h1, -⟩ := Prod.mk.inj heq; rw [← h1])
          · rename_i st3 e hnext
            rw [ihnext cwd st1 st3 _ p hnext]
            exact hf1
          · rename_i st3 n3 hnext
            rw [ihnext cwd st1 st3 _ p hnext]
            exact hf1
      · rw [if_neg hned] at heq
        exact ihnext cwd st st2 r p heq

theorem doLoadNedSourceFolder_folderPackages (env : Env) (pm : PatternOps) (cwd : String)
    (st : CacheState) (folderName : String) (contents : Fs) (p : Option String)
    (excl : List String) (st2 : CacheState) (r : Except Err Nat)
    (h : doLoadNedSourceFolder env pm cwd st folderName contents p excl = (st2, r)) :
    st2.folderPackages = st.folderPackages := by
  unfold doLoadNedSourceFolder at h
  split at h
  · obtain ⟨h1, -⟩ := Prod.mk.inj h
    rw [← h1]
  · exact walkFolderEntries_folderPackages env pm excl contents _ st st2 r p h


/-- C8: `loadNedSourceFolder` records the canonical-folder → root-package
mapping before any file of the folder is loaded, and the mapping survives
a failing recursive load: whatever the outcome, the final state maps the
canonical folder to its root package, and (under the canonicality and
non-nesting side conditions) both folder getters afterwards answer as if
the folder were a registered source folder. -/
theorem C8_failed_folder_mapping_persists (env : Env) (pm : PatternOps) (cwd : String)
    (st : CacheState) (folderName : String) (contents : Fs) (excludedPackagesStr : String)
    (st' : CacheState) (r : Except Err Nat) (pkg : String)
    (hroot : determineRootPackageName env cwd folderName = .ok pkg)
    (hrun : loadNedSourceFolder env pm cwd st folderName contents excludedPackagesStr
      = (st', r)) :
    mapGet st'.folderPackages (canonicalize cwd folderName) = some pkg ∧
    ((∀ q ∈ st'.folderPackages, q.1 ≠ canonicalize cwd folderName →
        isPathPrefixOf q.1 (canonicalize cwd folderName) = false) →
      canonicalize cwd folderName ≠ "" →
      getNedSourceFolderForFolder cwd st' folderName = canonicalize cwd folderName ∧
      getNedPackageForFolder cwd st' folderName = pkg) := by
  have hfp : st'.folderPackages
      = mapInsert st.folderPackages (canonicalize cwd folderName) pkg := by
    unfold loadNedSourceFolder at hrun
    rw [hroot] at hrun
    dsimp only [] at hrun
    split at hrun
    · rename_i stD e hload
      rw [← (Prod.mk.inj hrun).1]
      exact doLoadNedSourceFolder_folderPackages env pm cwd _ folderName contents
        (some pkg) _ stD _ hload
    · rename_i stD m hload
      rw [← (Prod.mk.inj hrun).1]
      exact doLoadNedSourceFolder_folderPackages env pm cwd _ folderName contents
        (some pkg) _ stD _ hload
  have hlk : mapGet st'.folderPackages (canonicalize cwd folderName) = some pkg := by
    rw [hfp]
    exact mapGet_mapInsert_self _ _ _
  refine ⟨hlk, ?_⟩
  intro hnn hne
  exact registeredFolderGetters cwd st' folderName (canonicalize cwd folderName) pkg
    rfl hlk hne hnn

/-- C8 witness: loading folder `root` under `/w` fails with a package
mismatch, yet the mapping `/w/root → ""` is recorded and both getters
answer as for a registered source folder. -/
theorem C8_witness :
    mapGet (loadNedSourceFolder envW pmW "/w" CacheState.initial "root" fsW8
      "").1.folderPackages "/w/root" = some "" ∧
    getNedSourceFolderForFolder "/w"
      (loadNedSourceFolder envW pmW "/w" CacheState.initial "root" fsW8 "").1 "root"
      = "/w/root" ∧
    getNedPackageForFolder "/w"
      (loadNedSourceFolder envW pmW "/w" CacheState.initial "root" fsW8 "").1 "root" = "" ∧
    (loadNedSourceFolder envW pmW "/w" CacheState.initial "root" fsW8 "").2
      = .error (.folderLoadFailed "root" (.packageMismatch "p" "" "Top.ned")) := by
  have h := C8_failed_folder_mapping_persists envW pmW "/w" CacheState.initial "root" fsW8 ""
    (loadNedSourceFolder envW pmW "/w" CacheState.initial "root" fsW8 "").1
    (loadNedSourceFolder envW pmW "/w" CacheState.initial "root" fsW8 "").2 "" rfl rfl
  have h2 := h.2 ?_ (by decide)
  · exact ⟨h.1, h2.1, h2.2, rfl⟩
  · intro q hq hneq
    have hfp : (loadNedSourceFolder envW pmW "/w" CacheState.initial "root" fsW8
        "").1.folderPackages = [("/w/root", "")] := rfl
    rw [hfp] at hq
    simp only [List.mem_singleton] at hq
    subst hq
    exact absurd rfl hneq

end NedRc
